import Mathlib

/-!
Shallow embedding of the ghost documentation auditor
(source: ghost-lib/src/lib.rs) and verification of its specification.

Modelling conventions:
* Rust `String`/`&str` values are `Str := List Char`.
* Rust `PathBuf`/`&Path` values are `FsPath := List Str`: the list of path
  components in the sense of Rust's `Path::components` (empty and `"."`
  segments are never stored; `".."` is kept as a literal component; an
  absolute path starts with the distinguished component `"/"`).
* The filesystem and the external sub-systems that the spec declares out of
  scope (directory walks, the markdown/HTML parser, the CSS and help-index
  regular expression scanners, and the YAML decoder) are oracles packaged in
  the `Env` and `Oracle` structures; every repository-owned computation is
  translated from the Rust source.
-/

abbrev Str := List Char

abbrev FsPath := List Str

/-- Rust `str::split(sep)`: the fields between occurrences of `sep`
(always at least one field; empty fields are kept). -/
def splitOn (sep : Char) : Str → List Str
  | [] => [[]]
  | c :: rest =>
    if c = sep then [] :: splitOn sep rest
    else
      match splitOn sep rest with
      | [] => [[c]]
      | h :: t => (c :: h) :: t

/-- Join path components with `/` (Rust `Vec::join("/")` / `PathBuf` display). -/
def joinSlash : List Str → Str
  | [] => []
  | [s] => s
  | s :: rest => s ++ '/' :: joinSlash rest

/-- Rust `str::trim`. -/
def trimStr (s : Str) : Str :=
  ((s.dropWhile Char.isWhitespace).reverse.dropWhile Char.isWhitespace).reverse

/-- Rust `str::starts_with` for a string pattern. -/
def startsWithStr (pat s : Str) : Bool :=
  pat.isPrefixOf s

/-- Rust `str::starts_with` for a char pattern. -/
def startsWithChar (c : Char) (s : Str) : Bool :=
  s.head? == some c

/-- Rust `str::ends_with` for a char pattern. -/
def endsWithChar (c : Char) (s : Str) : Bool :=
  s.getLast? == some c

/-- Rust `str::ends_with` for a string pattern. -/
def endsWithStr (pat s : Str) : Bool :=
  pat.reverse.isPrefixOf s.reverse

/-- Rust `str::trim_end_matches('/')`: remove every trailing slash. -/
def trimEndSlashes (s : Str) : Str :=
  (s.reverse.dropWhile (fun c => c = '/')).reverse

/-- Rust `link.split('#').next().unwrap_or("")`: the part before the first
`#` (the whole string when there is no `#`). -/
def stripHash (s : Str) : Str :=
  s.takeWhile (fun c => c ≠ '#')

/-- The components of a path given as a string, in the sense of Rust
`Path::new(s).components()` for a relative path: split on `/`, dropping
empty segments and `"."` segments, keeping `".."`. -/
def pathComps (s : Str) : List Str :=
  (splitOn '/' s).filter (fun c => !(c == [] || c == [ '.' ]))

/-- The distinguished component representing Rust's `RootDir`. -/
def slashComp : Str := [ '/' ]

/-- The parent-directory component `".."`. -/
def dotDot : Str := [ '.', '.' ]

/-- Rust `Path::file_name` on a string path: the last component, unless the
path ends in `".."` (or has no components at all). -/
def fileName (s : Str) : Option Str :=
  match (pathComps s).getLast? with
  | none => none
  | some c => if c == dotDot then none else some c

/-- The extension of a file name, Rust's `split_file_at_dot`: the part after
the last `.`, provided that dot is not the first character. -/
def extCore (f : Str) : Option Str :=
  let rev := f.reverse
  let afterDot := rev.takeWhile (fun c => c ≠ '.')
  match rev.dropWhile (fun c => c ≠ '.') with
  | [] => none
  | _ :: before => if before = [] then none else some afterDot.reverse

/-- Rust `Path::extension` on a string path. -/
def extension (s : Str) : Option Str :=
  (fileName s).bind extCore

def mdStr : Str := ("md").toList

def dotMd : Str := '.' :: mdStr

def httpPat : Str := ("http").toList

def mailtoPat : Str := ("mailto:").toList

/-- One link of `normalise_links` (ghost-lib/src/lib.rs, `normalise_links`):
strip the `#` fragment, trim, drop empty/external/mailto links, turn a
trailing `/` into `.md`, keep `.md` links, drop other extensions, append
`.md` when there is no extension. -/
def normaliseLink (link : Str) : Option Str :=
  let l := trimStr (stripHash link)
  if l = [] then none
  else if startsWithStr httpPat l || startsWithStr mailtoPat l then none
  else if endsWithChar '/' l then
    let l2 := trimEndSlashes l
    if l2 = [] then none else some (l2 ++ dotMd)
  else
    match extension l with
    | some e => if e = mdStr then some l else none
    | none => some (l ++ dotMd)

/-- `normalise_links` over a list of raw link strings. -/
def normaliseLinks (links : List Str) : List Str :=
  links.filterMap normaliseLink

/-! ### General lemmas about the string utilities -/

theorem splitOn_ne_nil (sep : Char) (s : Str) : splitOn sep s ≠ [] := by
  induction s with
  | nil => simp [splitOn]
  | cons c rest ih =>
    simp only [splitOn]
    split
    · simp
    · cases h : splitOn sep rest with
      | nil => simp
      | cons h t => simp

theorem splitOn_eq_single (sep : Char) (s : Str) (h : sep ∉ s) : splitOn sep s = [s] := by
  induction s with
  | nil => rfl
  | cons c rest ih =>
    have hc : ¬ c = sep := fun hcs => h (hcs ▸ List.mem_cons_self c rest)
    have hr : sep ∉ rest := fun hm => h (List.mem_cons_of_mem c hm)
    simp only [splitOn, if_neg hc, ih hr]

theorem splitOn_append_last (sep : Char) (u : Str) (hu : sep ∉ u) (s : Str) :
    ∃ L seg, splitOn sep s = L ++ [seg] ∧ splitOn sep (s ++ u) = L ++ [seg ++ u] := by
  induction s with
  | nil =>
    exact ⟨[], [], rfl, by simpa using splitOn_eq_single sep u hu⟩
  | cons c rest ih =>
    obtain ⟨L, seg, h1, h2⟩ := ih
    by_cases hc : c = sep
    · refine ⟨[] :: L, seg, ?_, ?_⟩
      · simp [splitOn, hc, h1]
      · simp [splitOn, hc, h2]
    · cases L with
      | nil =>
        refine ⟨[], c :: seg, ?_, ?_⟩
        · simp only [splitOn, if_neg hc]
          rw [h1]
          simp
        · show splitOn sep (c :: (rest ++ u)) = [] ++ [c :: (seg ++ u)]
          simp only [splitOn, if_neg hc]
          rw [h2]
          simp
      | cons h0 t0 =>
        refine ⟨(c :: h0) :: t0, seg, ?_, ?_⟩
        · simp only [splitOn, if_neg hc]
          rw [h1]
          simp
        · show splitOn sep (c :: (rest ++ u)) = ((c :: h0) :: t0) ++ [seg ++ u]
          simp only [splitOn, if_neg hc]
          rw [h2]
          simp

theorem splitOn_cons_eq (sep c : Char) (rest : Str) :
    splitOn sep (c :: rest) = if c = sep then [] :: splitOn sep rest
      else
        match splitOn sep rest with
        | [] => [[c]]
        | h :: t => (c :: h) :: t := rfl

theorem splitOn_last_of_not_end (sep : Char) (s : Str) (hne : s ≠ [])
    (hend : ¬ s.getLast? = some sep) :
    ∃ L seg, splitOn sep s = L ++ [seg] ∧ seg ≠ [] := by
  induction s with
  | nil => exact absurd rfl hne
  | cons c rest ih =>
    cases rest with
    | nil =>
      have hc : ¬ c = sep := by simpa using hend
      refine ⟨[], [c], ?_, by simp⟩
      simp [splitOn, hc]
    | cons d rest' =>
      have hend' : ¬ (d :: rest').getLast? = some sep := by
        simpa [List.getLast?_cons_cons] using hend
      obtain ⟨L, seg, h1, h2⟩ := ih (by simp) hend'
      by_cases hc : c = sep
      · refine ⟨[] :: L, seg, ?_, h2⟩
        rw [splitOn_cons_eq, if_pos hc, h1]
        simp
      · cases L with
        | nil =>
          refine ⟨[], c :: seg, ?_, by simp⟩
          rw [splitOn_cons_eq, if_neg hc, h1]
          simp
        | cons h0 t0 =>
          refine ⟨(c :: h0) :: t0, seg, ?_, h2⟩
          rw [splitOn_cons_eq, if_neg hc, h1]
          simp

theorem concat_inj_last {l l' : List Str} {a a' : Str} (h : l ++ [a] = l' ++ [a']) :
    l = l' ∧ a = a' := by
  have h2 := congrArg List.getLast? h
  simp only [List.getLast?_concat, Option.some.injEq] at h2
  have h3 := congrArg List.dropLast h
  simp only [List.dropLast_concat] at h3
  exact ⟨h3, h2⟩

theorem extCore_append_dotMd (seg : Str) (hne : seg ≠ []) :
    extCore (seg ++ dotMd) = some mdStr := by
  have hrev : (seg ++ dotMd).reverse = 'd' :: 'm' :: '.' :: seg.reverse := by
    simp [dotMd, mdStr]
  simp only [extCore, hrev]
  have h1 : List.takeWhile (fun c => decide (c ≠ '.')) ('d' :: 'm' :: '.' :: seg.reverse)
      = [ 'd', 'm' ] := by
    simp [List.takeWhile]
  have h2 : List.dropWhile (fun c => decide (c ≠ '.')) ('d' :: 'm' :: '.' :: seg.reverse)
      = '.' :: seg.reverse := by
    simp [List.dropWhile]
  rw [h1, h2]
  simp [mdStr, List.reverse_eq_nil_iff, hne]

theorem extension_append_dotMd (t : Str) (hne : t ≠ []) (hend : endsWithChar '/' t = false) :
    extension (t ++ dotMd) = some mdStr := by
  have hnd : '/' ∉ dotMd := by decide
  have hend' : ¬ t.getLast? = some '/' := by
    intro h
    simp [endsWithChar, h] at hend
  obtain ⟨L, seg, h1, hsegne⟩ := splitOn_last_of_not_end '/' t hne hend'
  obtain ⟨L', seg', h1', h2'⟩ := splitOn_append_last '/' dotMd hnd t
  obtain ⟨hL, hseg⟩ := concat_inj_last (h1 ▸ h1')
  subst hL hseg
  have hsegMd : ¬ seg ++ dotMd = ([] : Str) := by simp [dotMd]
  have hsegDot : ¬ seg ++ dotMd = ([ '.' ] : Str) := by
    intro h
    have hl := congrArg List.length h
    simp [dotMd, mdStr] at hl
  have hkeep : (!((seg ++ dotMd) == ([] : Str) || (seg ++ dotMd) == ([ '.' ] : Str))) = true := by
    simp [hsegMd, hsegDot]
  have hcomps : pathComps (t ++ dotMd)
      = (L.filter (fun c => !(c == ([] : Str) || c == ([ '.' ] : Str)))) ++ [seg ++ dotMd] := by
    simp only [pathComps, h2', List.filter_append, List.filter_cons, hkeep, if_true]
    simp
  have hlast : (pathComps (t ++ dotMd)).getLast? = some (seg ++ dotMd) := by
    rw [hcomps, List.getLast?_concat]
  have hnotdd : ¬ seg ++ dotMd = dotDot := by
    intro h
    have hl := congrArg List.length h
    simp [dotMd, mdStr, dotDot] at hl
  simp only [extension, fileName, hlast, Option.bind_eq_bind]
  rw [if_neg (by simpa using hnotdd)]
  simpa using extCore_append_dotMd seg hsegne

theorem prefix_append_cases (p t s : Str) (h : p.isPrefixOf (t ++ s) = true) :
    p.isPrefixOf t = true ∨ ∃ q, p = t ++ q ∧ q.isPrefixOf s = true := by
  induction t generalizing p with
  | nil => exact Or.inr ⟨p, rfl, h⟩
  | cons a t' ih =>
    cases p with
    | nil => exact Or.inl rfl
    | cons b p' =>
      rw [List.isPrefixOf_iff_prefix, List.cons_append, List.cons_prefix_cons] at h
      obtain ⟨rfl, h2⟩ := h
      rw [← List.isPrefixOf_iff_prefix] at h2
      rcases ih p' h2 with h3 | ⟨q, rfl, hq⟩
      · left
        rw [List.isPrefixOf_iff_prefix] at h3 ⊢
        exact List.cons_prefix_cons.mpr ⟨rfl, h3⟩
      · right
        exact ⟨q, rfl, hq⟩

theorem not_startsWith_append_dotMd (pat t t2 : Str) (hdot : '.' ∉ pat)
    (hp : startsWithStr pat t = false) (hpre : t2 <+: t) (hne : t2 ≠ []) :
    startsWithStr pat (t2 ++ dotMd) = false := by
  unfold startsWithStr at hp ⊢
  by_contra hc
  rw [Bool.not_eq_false] at hc
  rcases prefix_append_cases pat t2 dotMd hc with h1 | ⟨q, rfl, hq⟩
  · have h2 : pat <+: t := (List.isPrefixOf_iff_prefix.mp h1).trans hpre
    rw [← List.isPrefixOf_iff_prefix] at h2
    rw [h2] at hp
    exact Bool.true_eq_false.mp hp
  · cases q with
    | nil =>
      have h2 : t2 ++ [] <+: t := by simpa using hpre
      rw [← List.isPrefixOf_iff_prefix] at h2
      rw [h2] at hp
      exact Bool.true_eq_false.mp hp
    | cons c q' =>
      have hcq : c = '.' := by
        rw [List.isPrefixOf_iff_prefix] at hq
        have := List.cons_prefix_cons.mp (by simpa [dotMd] using hq)
        exact this.1
      subst hcq
      exact hdot (List.mem_append_right t2 (List.mem_cons_self '.' q'))

theorem dropWhile_head_not (p : Char → Bool) (l : Str) (c : Char)
    (h : (l.dropWhile p).head? = some c) : p c = false := by
  induction l with
  | nil => simp [List.dropWhile] at h
  | cons a rest ih =>
    by_cases hp : p a
    · rw [List.dropWhile_cons_of_pos hp] at h
      exact ih h
    · rw [List.dropWhile_cons_of_neg hp] at h
      simp at h
      rw [← h]
      exact Bool.not_eq_true _ ▸ (by simpa using hp)

theorem dropWhile_eq_self_of_head (p : Char → Bool) (l : Str)
    (h : ∀ c, l.head? = some c → p c = false) : l.dropWhile p = l := by
  cases l with
  | nil => rfl
  | cons a rest =>
    have := h a (by simp)
    rw [List.dropWhile_cons_of_neg (by simp [this])]

theorem prefix_head_eq {l l' : Str} (h : l <+: l') (hne : l ≠ []) : l.head? = l'.head? := by
  obtain ⟨r, rfl⟩ := h
  cases l with
  | nil => exact absurd rfl hne
  | cons a t => simp

theorem trimStr_prefix_dropWhile (s : Str) :
    trimStr s <+: s.dropWhile Char.isWhitespace := by
  unfold trimStr
  have h := List.dropWhile_suffix (l := (s.dropWhile Char.isWhitespace).reverse)
      (p := Char.isWhitespace)
  rw [← List.reverse_prefix] at h
  simpa using h

theorem trimEndSlashes_prefixOf (s : Str) : trimEndSlashes s <+: s := by
  unfold trimEndSlashes
  have h := List.dropWhile_suffix (l := s.reverse) (p := fun c => c = '/')
  rw [← List.reverse_prefix] at h
  simpa using h

theorem trimStr_head_not_ws (s : Str) (c : Char) (h : (trimStr s).head? = some c) :
    c.isWhitespace = false := by
  have hpre := trimStr_prefix_dropWhile s
  have hne : trimStr s ≠ [] := by
    intro h0
    rw [h0] at h
    simp at h
  rw [prefix_head_eq hpre hne] at h
  exact dropWhile_head_not _ _ _ h

theorem trimStr_getLast_not_ws (s : Str) (c : Char) (h : (trimStr s).getLast? = some c) :
    c.isWhitespace = false := by
  unfold trimStr at h
  rw [List.getLast?_reverse] at h
  exact dropWhile_head_not _ _ _ h

theorem trimEndSlashes_getLast_ne_slash (s : Str) (c : Char)
    (h : (trimEndSlashes s).getLast? = some c) : ¬ c = '/' := by
  unfold trimEndSlashes at h
  rw [List.getLast?_reverse] at h
  have := dropWhile_head_not _ _ _ h
  simpa using this

theorem trimStr_eq_self (s : Str)
    (hh : ∀ c, s.head? = some c → c.isWhitespace = false)
    (hl : ∀ c, s.getLast? = some c → c.isWhitespace = false) : trimStr s = s := by
  unfold trimStr
  rw [dropWhile_eq_self_of_head _ _ hh]
  rw [dropWhile_eq_self_of_head _ _ (fun c hc => hl c (by rw [← List.head?_reverse]; exact hc))]
  exact List.reverse_reverse s

theorem mem_trimStr {c : Char} {s : Str} (h : c ∈ trimStr s) : c ∈ s := by
  unfold trimStr at h
  rw [List.mem_reverse] at h
  have h2 := (List.dropWhile_suffix (p := Char.isWhitespace)).sublist.subset h
  rw [List.mem_reverse] at h2
  exact (List.dropWhile_suffix (p := Char.isWhitespace)).sublist.subset h2

theorem mem_stripHash {c : Char} {s : Str} (h : c ∈ stripHash s) : ¬ c = '#' := by
  have := List.mem_takeWhile_imp h
  simpa using this

theorem stripHash_eq_self (s : Str) (h : ∀ c ∈ s, ¬ c = '#') : stripHash s = s := by
  unfold stripHash
  rw [List.takeWhile_eq_self_iff]
  intro x hx
  simpa using h x hx

theorem normaliseLink_eq (link : Str) :
    normaliseLink link =
      if trimStr (stripHash link) = [] then none
      else if startsWithStr httpPat (trimStr (stripHash link))
          || startsWithStr mailtoPat (trimStr (stripHash link)) then none
      else if endsWithChar '/' (trimStr (stripHash link)) then
        if trimEndSlashes (trimStr (stripHash link)) = [] then none
        else some (trimEndSlashes (trimStr (stripHash link)) ++ dotMd)
      else
        match extension (trimStr (stripHash link)) with
        | some e => if e = mdStr then some (trimStr (stripHash link)) else none
        | none => some (trimStr (stripHash link) ++ dotMd) := rfl

theorem normaliseLink_some_cases (link r : Str) (h : normaliseLink link = some r) :
    ¬ trimStr (stripHash link) = [] ∧
    startsWithStr httpPat (trimStr (stripHash link)) = false ∧
    startsWithStr mailtoPat (trimStr (stripHash link)) = false ∧
    ((endsWithChar '/' (trimStr (stripHash link)) = true ∧
        ¬ trimEndSlashes (trimStr (stripHash link)) = [] ∧
        r = trimEndSlashes (trimStr (stripHash link)) ++ dotMd) ∨
      (endsWithChar '/' (trimStr (stripHash link)) = false ∧
        extension (trimStr (stripHash link)) = some mdStr ∧
        r = trimStr (stripHash link)) ∨
      (endsWithChar '/' (trimStr (stripHash link)) = false ∧
        extension (trimStr (stripHash link)) = none ∧
        r = trimStr (stripHash link) ++ dotMd)) := by
  rw [normaliseLink_eq] at h
  set t := trimStr (stripHash link) with ht
  by_cases h1 : t = []
  · rw [if_pos h1] at h
    exact absurd h (by simp)
  rw [if_neg h1] at h
  by_cases h2 : (startsWithStr httpPat t || startsWithStr mailtoPat t) = true
  · rw [if_pos h2] at h
    exact absurd h (by simp)
  rw [if_neg h2] at h
  rw [Bool.or_eq_true, not_or] at h2
  obtain ⟨h2a, h2b⟩ := h2
  refine ⟨h1, by simpa using h2a, by simpa using h2b, ?_⟩
  by_cases h3 : endsWithChar '/' t = true
  · rw [if_pos (by simpa using h3)] at h
    by_cases h4 : trimEndSlashes t = []
    · rw [if_pos h4] at h
      exact absurd h (by simp)
    · rw [if_neg h4] at h
      exact Or.inl ⟨h3, h4, (Option.some.injEq _ _ ▸ h).symm⟩
  · rw [if_neg (by simpa using h3)] at h
    cases hext : extension t with
    | some e =>
      rw [hext] at h
      have h' : (if e = mdStr then some t else (none : Option Str)) = some r := h
      by_cases h5 : e = mdStr
      · rw [if_pos h5] at h'
        exact Or.inr (Or.inl ⟨by simpa using h3, by rw [h5], (Option.some.injEq _ _ ▸ h').symm⟩)
      · rw [if_neg h5] at h'
        exact absurd h' (by simp)
    | none =>
      rw [hext] at h
      have h' : some (t ++ dotMd) = some r := h
      exact Or.inr (Or.inr ⟨by simpa using h3, rfl, (Option.some.injEq _ _ ▸ h').symm⟩)

theorem normaliseLink_append_fixed (t t2 : Str)
    (hhttp : startsWithStr httpPat t = false)
    (hmailto : startsWithStr mailtoPat t = false)
    (hHash : ∀ c ∈ t, ¬ c = '#')
    (hHead : ∀ c, t.head? = some c → c.isWhitespace = false)
    (hpre : t2 <+: t) (hne2 : ¬ t2 = [])
    (hend2 : endsWithChar '/' t2 = false) :
    normaliseLink (t2 ++ dotMd) = some (t2 ++ dotMd) := by
  have hHashR : ∀ c ∈ t2 ++ dotMd, ¬ c = '#' := by
    intro c hc
    rcases List.mem_append.mp hc with hc1 | hc2
    · exact hHash c (hpre.sublist.subset hc1)
    · have hall : ∀ x ∈ dotMd, ¬ x = '#' := by decide
      exact hall c hc2
  have hHeadR : ∀ c, (t2 ++ dotMd).head? = some c → c.isWhitespace = false := by
    intro c hc
    rw [List.head?_append, prefix_head_eq hpre hne2] at hc
    cases hh : t.head? with
    | none =>
      rw [hh] at hc
      have : t2 = [] := by
        have := prefix_head_eq hpre hne2
        rw [hh] at this
        exact List.head?_eq_none_iff.mp this
      exact absurd this hne2
    | some c0 =>
      rw [hh] at hc
      simp at hc
      exact hc ▸ hHead c0 hh
  have hLastR : ∀ c, (t2 ++ dotMd).getLast? = some c → c.isWhitespace = false := by
    intro c hc
    rw [List.getLast?_append] at hc
    have : dotMd.getLast? = some 'd' := by decide
    rw [this] at hc
    simp at hc
    subst hc
    decide
  have hstrip : stripHash (t2 ++ dotMd) = t2 ++ dotMd := stripHash_eq_self _ hHashR
  have htrim : trimStr (t2 ++ dotMd) = t2 ++ dotMd := trimStr_eq_self _ hHeadR hLastR
  rw [normaliseLink_eq, hstrip, htrim]
  rw [if_neg (by simp [dotMd])]
  rw [if_neg (by
    simp only [Bool.or_eq_true, not_or]
    constructor
    · simp [not_startsWith_append_dotMd httpPat t t2 (by decide) hhttp hpre hne2]
    · simp [not_startsWith_append_dotMd mailtoPat t t2 (by decide) hmailto hpre hne2])]
  have hendR : endsWithChar '/' (t2 ++ dotMd) = false := by
    unfold endsWithChar
    rw [List.getLast?_append]
    have : dotMd.getLast? = some 'd' := by decide
    rw [this]
    simp
  rw [if_neg (by simp [hendR])]
  rw [extension_append_dotMd t2 hne2 hend2]
  simp

theorem normaliseLink_fixed (link r : Str) (h : normaliseLink link = some r) :
    normaliseLink r = some r := by
  obtain ⟨hne, hhttp, hmailto, hcases⟩ := normaliseLink_some_cases link r h
  set t := trimStr (stripHash link) with ht
  have hHash : ∀ c ∈ t, ¬ c = '#' := fun c hc => mem_stripHash (mem_trimStr hc)
  have hHead : ∀ c, t.head? = some c → c.isWhitespace = false :=
    fun c hc => trimStr_head_not_ws _ c hc
  have hLast : ∀ c, t.getLast? = some c → c.isWhitespace = false :=
    fun c hc => trimStr_getLast_not_ws _ c hc
  rcases hcases with ⟨hsl, hne2, hr⟩ | ⟨hsl, hext, hr⟩ | ⟨hsl, hext, hr⟩
  · -- trailing-slash branch: r = trimEndSlashes t ++ ".md"
    subst hr
    have hend2 : endsWithChar '/' (trimEndSlashes t) = false := by
      unfold endsWithChar
      cases hl : (trimEndSlashes t).getLast? with
      | none => simp
      | some d =>
        have := trimEndSlashes_getLast_ne_slash t d hl
        simpa using this
    exact normaliseLink_append_fixed t (trimEndSlashes t) hhttp hmailto hHash hHead
      (trimEndSlashes_prefixOf t) hne2 hend2
  · -- already-markdown branch: r = t is kept unchanged
    subst hr
    have hstrip : stripHash t = t := stripHash_eq_self _ hHash
    have htrim : trimStr t = t := trimStr_eq_self _ hHead hLast
    rw [normaliseLink_eq, hstrip, htrim]
    rw [if_neg hne]
    rw [if_neg (by simp [hhttp, hmailto])]
    rw [if_neg (by simp [hsl])]
    rw [hext]
    simp
  · -- no-extension branch: r = t ++ ".md"
    subst hr
    exact normaliseLink_append_fixed t t hhttp hmailto hHash hHead
      (List.prefix_refl t) hne hsl

theorem filterMap_fix {f : Str → Option Str} (hf : ∀ a r, f a = some r → f r = some r)
    (L : List Str) : (L.filterMap f).filterMap f = L.filterMap f := by
  induction L with
  | nil => rfl
  | cons a rest ih =>
    cases h : f a with
    | none =>
      simp only [List.filterMap_cons, h]
      exact ih
    | some r =>
      simp only [List.filterMap_cons, h, hf a r h]
      rw [ih]

/-! ### Claims C5 and C6: normalise_links -/

def httpSlashPat : Str := ("http://").toList

def httpsSlashPat : Str := ("https://").toList

/-- The drop condition of claim C5, as the claim states it: a link is dropped
iff it is empty after anchor-stripping and trimming, or it is an external
`http`/`https` link or a `mailto:` link, or it has an extension other than
`.md`. -/
def claimC5Drops (link : Str) : Prop :=
  trimStr (stripHash link) = [] ∨
  startsWithStr httpSlashPat (trimStr (stripHash link)) = true ∨
  startsWithStr httpsSlashPat (trimStr (stripHash link)) = true ∨
  startsWithStr mailtoPat (trimStr (stripHash link)) = true ∨
  ((extension (trimStr (stripHash link))).isSome ∧
    ¬ extension (trimStr (stripHash link)) = some mdStr)

/-- Claim C5, counterexample: the link `"/"` is dropped by `normalise_links`,
but none of the drop conditions enumerated by the claim holds for it (it is
nonempty after anchor-stripping and trimming, it is not an external or
`mailto:` link, and it has no extension at all), so the claim's
"dropped if and only if" is false at this input. -/
theorem c5_counterexample :
    normaliseLinks [ [ '/' ] ] = [] ∧ ¬ claimC5Drops [ '/' ] := by
  constructor
  · rfl
  · unfold claimC5Drops
    decide

/-- The amended claim C5, stated declaratively: the link is dropped iff it is
empty after anchor-stripping and trimming, or it starts with `"http"` or with
`"mailto:"`, or it consists solely of slashes, or it does not end in `/` and
has an extension other than `.md`; a surviving link ending in `/` has all its
trailing slashes removed and `.md` appended (regardless of any extension), a
surviving link with an extension (necessarily `.md`) is kept unchanged, and a
surviving link without an extension gets `.md` appended. -/
def normaliseLinkSpec (link : Str) : Option Str :=
  let t := trimStr (stripHash link)
  if t = [] ∨ startsWithStr httpPat t = true ∨ startsWithStr mailtoPat t = true ∨
      (endsWithChar '/' t = true ∧ trimEndSlashes t = []) ∨
      (endsWithChar '/' t = false ∧ (extension t).isSome ∧ ¬ extension t = some mdStr) then
    none
  else if endsWithChar '/' t = true then some (trimEndSlashes t ++ dotMd)
  else if (extension t).isSome then some t
  else some (t ++ dotMd)

/-- Claim C5 (amended): for every raw link string, `normalise_links` drops the
link iff it is empty after anchor-stripping and trimming, or starts with
`"http"` or `"mailto:"`, or consists solely of slashes, or does not end in
`/` and has an extension other than `.md`; otherwise trailing slashes are
all removed and `.md` is appended (bypassing the extension check), links with
extension `.md` are kept unchanged, and extensionless links get `.md`
appended. -/
theorem c5_normalise_link_amended (link : Str) :
    normaliseLink link = normaliseLinkSpec link := by
  rw [normaliseLink_eq]
  unfold normaliseLinkSpec
  simp only []
  set t := trimStr (stripHash link) with ht
  by_cases h1 : t = []
  · simp [h1]
  by_cases h2 : startsWithStr httpPat t = true
  · simp [h1, h2]
  by_cases h3 : startsWithStr mailtoPat t = true
  · simp [h1, h2, h3]
  by_cases h4 : endsWithChar '/' t = true
  · by_cases h5 : trimEndSlashes t = []
    · simp [h1, h2, h3, h4, h5]
    · simp [h1, h2, h3, h4, h5]
  · cases hext : extension t with
    | none => simp [h1, h2, h3, h4, hext]
    | some e =>
      by_cases h6 : e = mdStr
      · subst h6
        simp [h1, h2, h3, h4, hext]
      · simp [h1, h2, h3, h4, hext, h6]

/-- Witness for C5's amended theorem (no hypotheses are needed, but a sample
closed instance): the link `"ravel"` normalises to `"ravel.md"` on both
sides. -/
theorem c5_normalise_link_amended_witness :
    normaliseLink (("ravel").toList) = some (("ravel.md").toList) ∧
      normaliseLinkSpec (("ravel").toList) = some (("ravel.md").toList) := by
  constructor
  · decide
  · rw [← c5_normalise_link_amended]
    decide

/-- Claim C6: `normalise_links` is idempotent, and every string it outputs is
a fixed point of per-link normalisation. -/
theorem c6_normalise_links_idempotent :
    (∀ L : List Str, normaliseLinks (normaliseLinks L) = normaliseLinks L) ∧
      (∀ L : List Str, ∀ r ∈ normaliseLinks L, normaliseLink r = some r) := by
  constructor
  · intro L
    exact filterMap_fix normaliseLink_fixed L
  · intro L r hr
    obtain ⟨a, _, ha⟩ := List.mem_filterMap.mp hr
    exact normaliseLink_fixed a r ha

/-- Witness for C6: a concrete instance of idempotence, with the membership
hypothesis of the second conjunct discharged at `"a.md" ∈ normalise_links
["a", "b.png"]`. -/
theorem c6_normalise_links_idempotent_witness :
    normaliseLinks (normaliseLinks [("a").toList, ("b.png").toList])
        = normaliseLinks [("a").toList, ("b.png").toList] ∧
      normaliseLink (("a.md").toList) = some (("a.md").toList) := by
  constructor
  · exact c6_normalise_links_idempotent.1 _
  · exact c6_normalise_links_idempotent.2 [("a").toList, ("b.png").toList]
      (("a.md").toList) (by decide)

/-! ### Claim C10: normalise_url -/

/-- The loop body of `normalise_url` (ghost-lib/src/lib.rs): iterate over the
path's components, skipping `CurDir`, popping the parts vector on
`ParentDir` (`Vec::pop` is a no-op on an empty vector), and pushing any other
component. -/
def normaliseUrlComps (comps : List Str) : List Str :=
  comps.foldl
    (fun parts c =>
      if c == [ '.' ] then parts
      else if c == dotDot then parts.dropLast
      else parts ++ [c])
    []

/-- `normalise_url`: the kept components joined with `/`. -/
def normaliseUrl (comps : List Str) : Str :=
  joinSlash (normaliseUrlComps comps)

/-- The step function exactly as claim C10 words it: skip each `.` component;
on `..` remove the most recently kept component when one exists and silently
discard the `..` otherwise; keep everything else. -/
def claimC10Step (kept : List Str) (c : Str) : List Str :=
  if c = [ '.' ] then kept
  else if c = dotDot then (if kept = [] then kept else kept.dropLast)
  else kept ++ [c]

theorem normaliseUrlComps_foldl (acc : List Str) (comps : List Str) :
    comps.foldl
        (fun parts c =>
          if c == [ '.' ] then parts
          else if c == dotDot then parts.dropLast
          else parts ++ [c])
        acc
      = comps.foldl claimC10Step acc := by
  induction comps generalizing acc with
  | nil => rfl
  | cons c rest ih =>
    simp only [List.foldl_cons]
    have hstep :
        (if c == [ '.' ] then acc
          else if c == dotDot then acc.dropLast
          else acc ++ [c])
        = claimC10Step acc c := by
      unfold claimC10Step
      by_cases h1 : c = [ '.' ]
      · simp [h1]
      · by_cases h2 : c = dotDot
        · subst h2
          by_cases h3 : acc = []
          · simp [h1, h3]
          · simp [h1, h3]
        · simp [h1, h2]
    rw [hstep]
    exact ih (claimC10Step acc c)

/-- Claim C10: `normalise_url` returns the `/`-joined sequence of components
obtained by skipping every `.` component and, on each `..`, removing the most
recently kept component when one exists and silently discarding the `..`
otherwise; consequently any run of leading `..` components (in particular a
relative link with more `..` segments than its base URL has ancestors) is
dropped, anchoring the result at the site root. -/
theorem c10_normalise_url :
    (∀ comps : List Str, normaliseUrl comps = joinSlash (comps.foldl claimC10Step [])) ∧
      (∀ (k : Nat) (comps : List Str),
        normaliseUrl (List.replicate k dotDot ++ comps) = normaliseUrl comps) := by
  constructor
  · intro comps
    unfold normaliseUrl normaliseUrlComps
    exact congrArg joinSlash (normaliseUrlComps_foldl [] comps)
  · intro k
    induction k with
    | zero => intro comps; rfl
    | succ n ih =>
      intro comps
      have h1 : List.replicate (n + 1) dotDot ++ comps
          = dotDot :: (List.replicate n dotDot ++ comps) := by
        simp [List.replicate_succ]
      rw [h1]
      unfold normaliseUrl normaliseUrlComps
      simp only [List.foldl_cons]
      have h2 : (if dotDot == ([ '.' ] : Str) then ([] : List Str)
          else if dotDot == dotDot then List.dropLast [] else [] ++ [dotDot]) = [] := by
        decide
      rw [h2]
      exact ih comps

/-! ### Filesystem paths -/

def docsComp : Str := ("docs").toList

/-- `normalize_path` (ghost-lib/src/lib.rs): resolve `.` and `..` components
without filesystem access; `..` pops the previous component only when that
component is a `Normal` one (not `..` and not the root), otherwise it is
kept. -/
def normalizePathComps (p : FsPath) : FsPath :=
  p.foldl
    (fun result c =>
      if c == dotDot then
        match result.getLast? with
        | some d => if d == dotDot || d == slashComp then result ++ [c] else result.dropLast
        | none => result ++ [c]
      else if c == [ '.' ] then result
      else result ++ [c])
    []

/-- The components of a string path including a leading root component for an
absolute path (Rust `Path::components` with `RootDir` represented as the
component `"/"`). -/
def pathCompsAbs (s : Str) : FsPath :=
  if startsWithChar '/' s then slashComp :: pathComps s else pathComps s

/-- Rust `PathBuf::join(s)` followed by `components().collect()`: appending a
relative string path's components, or replacing the whole path when `s` is
absolute. -/
def fsJoinStr (p : FsPath) (s : Str) : FsPath :=
  if startsWithChar '/' s then pathCompsAbs s else p ++ pathComps s

/-- Rust `Path::parent` on a component list: `None` for the empty path and
for the bare root, otherwise the path without its last component. -/
def parentFs (p : FsPath) : Option FsPath :=
  match p with
  | [] => none
  | _ => if p == [slashComp] then none else some p.dropLast

/-- Rust `Path::file_name` on a component list. -/
def fsFileName (p : FsPath) : Option Str :=
  match p.getLast? with
  | none => none
  | some c => if c == dotDot || c == slashComp then none else some c

/-- Rust `Path::extension` on a component list. -/
def fsExtension (p : FsPath) : Option Str :=
  (fsFileName p).bind extCore

/-- The stem of one path component: Rust `Path::file_stem` restricted to a
single `Normal` component (drop the extension and its dot when one exists). -/
def stemOfSeg (seg : Str) : Str :=
  match extCore seg with
  | some e => seg.take (seg.length - (e.length + 1))
  | none => seg

/-- Rust `PathBuf::with_extension("")` on a component list: no-op when the
path has no file name, otherwise the last component with its extension (and
dot) removed. -/
def withExtEmptyComps (p : FsPath) : FsPath :=
  match p.getLast? with
  | none => p
  | some c => if c == dotDot || c == slashComp then p else p.dropLast ++ [stemOfSeg c]

/-- Rust `PathBuf::with_extension("md")` on a component list. -/
def withExtMdComps (p : FsPath) : FsPath :=
  match p.getLast? with
  | none => p
  | some c =>
    if c == dotDot || c == slashComp then p else p.dropLast ++ [stemOfSeg c ++ dotMd]

/-- Rust `Path::file_stem` on a string path. -/
def fileStemStr (s : Str) : Option Str :=
  (fileName s).map stemOfSeg

/-! ### Link maps (build_link_maps / insert_mapping / resolve_link) -/

structure BrokenLink where
  fromFile : FsPath
  link : Str
  fromHelpUrl : Bool
deriving DecidableEq

structure BrokenImage where
  fromFile : FsPath
  image : Str
deriving DecidableEq

/-- `LinkMaps`: both hash maps are modelled as association lists searched
front-to-back, with insertion only when the key is absent (`entry.or_insert`,
i.e. first-write-wins). -/
structure LinkMaps where
  urlToSrc : List (Str × FsPath)
  srcToUrl : List (FsPath × Str)
deriving DecidableEq

/-- Association-list lookup (front-to-back, first match wins). -/
def lookupAssoc {α β : Type} [BEq α] (m : List (α × β)) (k : α) : Option β :=
  (m.find? (fun e => e.1 == k)).map Prod.snd

/-- `HashMap::entry(k).or_insert(v)`: insert only when the key is absent. -/
def insertAssoc {α β : Type} [BEq α] (m : List (α × β)) (k : α) (v : β) : List (α × β) :=
  match lookupAssoc m k with
  | some _ => m
  | none => m ++ [(k, v)]

def lookupUrlToSrc (m : List (Str × FsPath)) (k : Str) : Option FsPath :=
  lookupAssoc m k

def lookupSrcToUrl (m : List (FsPath × Str)) (k : FsPath) : Option Str :=
  lookupAssoc m k

def insertUrlToSrc (m : List (Str × FsPath)) (k : Str) (v : FsPath) : List (Str × FsPath) :=
  insertAssoc m k v

def insertSrcToUrl (m : List (FsPath × Str)) (k : FsPath) (v : Str) : List (FsPath × Str) :=
  insertAssoc m k v

/-- The rendered URL `insert_mapping` computes for a nav leaf: with an empty
URL prefix, the normalised nav path with its extension stripped; otherwise
the prefix joined with the path's file stem. -/
def renderedForNav (navPath : Str) (urlPrefixComps : List Str) : Str :=
  if urlPrefixComps == [] then
    normaliseUrl (withExtEmptyComps (pathComps navPath))
  else
    let stem :=
      match fileStemStr navPath with
      | some s => s
      | none => navPath
    normaliseUrl (urlPrefixComps ++ pathComps stem)

/-- `insert_mapping` (ghost-lib/src/lib.rs): record the pair
(rendered URL, filesystem path) for one nav leaf, first-write-wins in both
directions. -/
def insertMapping (navPath : Str) (mkdocsDir : FsPath) (urlPrefixComps : List Str)
    (m : LinkMaps) : LinkMaps :=
  let fsP := fsJoinStr (fsJoinStr mkdocsDir docsComp) navPath
  let rendered := renderedForNav navPath urlPrefixComps
  { urlToSrc := insertUrlToSrc m.urlToSrc rendered fsP,
    srcToUrl := insertSrcToUrl m.srcToUrl fsP rendered }

/-- `rendered_url_for_link` (ghost-lib/src/lib.rs): the source's canonical
URL, its parent joined with the link (absolute links resolve against the
site root), extension stripped, normalised. -/
def renderedUrlForLink (maps : LinkMaps) (fromSrc : FsPath) (link : Str) : Option Str :=
  match lookupSrcToUrl maps.srcToUrl fromSrc with
  | none => none
  | some fromUrl =>
    let target := link.dropWhile (fun c => c = '/')
    let baseDir := (pathComps fromUrl).dropLast
    let joined := if startsWithChar '/' link then pathComps target else baseDir ++ pathComps target
    some (normaliseUrl (withExtEmptyComps joined))

def indexStr : Str := ("index").toList

/-- `lookup_url` (ghost-lib/src/lib.rs): exact lookup, then with trailing
slashes trimmed, then with `"/index"` appended. -/
def lookupUrl (rendered : Str) (urlToSrc : List (Str × FsPath)) : Option FsPath :=
  match lookupUrlToSrc urlToSrc rendered with
  | some p => some p
  | none =>
    let alt := trimEndSlashes rendered
    match lookupUrlToSrc urlToSrc alt with
    | some p => some p
    | none => lookupUrlToSrc urlToSrc (alt ++ '/' :: indexStr)

/-- `resolve_link` (ghost-lib/src/lib.rs): strategy 1 of the cascade. -/
def resolveLink (fromSrc : FsPath) (link : Str) (maps : LinkMaps) : Option FsPath :=
  match renderedUrlForLink maps fromSrc link with
  | none => none
  | some rendered => lookupUrl rendered maps.urlToSrc

/-! ### URL-space resolution (resolve_link_via_url_space / url_to_filesystem) -/

/-- Walk `Path::ancestors()` (longest first) looking for an ancestor whose
file name is `"docs"`; the reversed component list makes this structural. -/
def findDocsDirRev : List Str → Option (List Str)
  | [] => none
  | c :: rest => if c == docsComp then some (c :: rest).reverse else findDocsDirRev rest

/-- `src.ancestors().find(|a| a.file_name() == Some("docs"))`. -/
def findDocsDir (p : FsPath) : Option FsPath :=
  findDocsDirRev p.reverse

/-- `docs_root_for` (ghost-lib/src/lib.rs): the parent of the ancestor
directory literally named `docs`. -/
def docsRootForRev : List Str → Option FsPath
  | [] => none
  | c :: rest => if c == docsComp then some rest.reverse else docsRootForRev rest

def docsRootFor (p : FsPath) : Option FsPath :=
  docsRootForRev p.reverse

/-- Iteration core of `str::trim_start_matches`; the fuel argument only
bounds the number of strips, and `stripPrefixRepeated` passes enough fuel
(each successful strip of a nonempty pattern shortens the string). -/
def stripPrefixRepeatedFuel : Nat → Str → Str → Str
  | 0, _, s => s
  | n + 1, pat, s =>
    if !pat.isEmpty && pat.isPrefixOf s then
      stripPrefixRepeatedFuel n pat (s.drop pat.length)
    else s

/-- Rust `str::trim_start_matches(pat)`: repeatedly strip the prefix `pat`
while it matches. -/
def stripPrefixRepeated (pat : Str) (s : Str) : Str :=
  stripPrefixRepeatedFuel s.length pat s

/-- A single URL segment as a relative path fragment: joining an empty
segment onto a `PathBuf` is a no-op. -/
def compsOfSeg (seg : Str) : List Str :=
  if seg == [] then [] else [seg]

/-- `url_to_filesystem` (ghost-lib/src/lib.rs): map a normalised URL back to
a filesystem path; when the URL's first segment names a different subsite
(a directory with its own `docs/`), insert `docs/` after it, otherwise
resolve inside the current subsite's `docs/` root. -/
def urlToFilesystem (isDir : FsPath → Bool) (normalizedUrl : Str) (subsiteName : Str)
    (docsDir : FsPath) (monorepoRoot : FsPath) : Option FsPath :=
  match splitOn '/' normalizedUrl with
  | [] => none
  | firstComponent :: rest =>
    let candidateSubsiteDocs := monorepoRoot ++ compsOfSeg firstComponent ++ [docsComp]
    let fsPath :=
      if !(firstComponent == subsiteName) && isDir candidateSubsiteDocs then
        rest.foldl (fun path part => path ++ compsOfSeg part) candidateSubsiteDocs
      else
        docsDir ++ pathComps (stripPrefixRepeated (subsiteName ++ [ '/' ]) normalizedUrl)
    some (withExtMdComps fsPath)

/-- `resolve_link_via_url_space` (ghost-lib/src/lib.rs): resolve the link in
URL space against both the page-as-directory base (the source's own rendered
URL) and the parent-directory base, mapping each resolved URL back to a
filesystem candidate; absolute links use the site root as base. -/
def resolveLinkViaUrlSpace (isDir : FsPath → Bool) (src : FsPath) (link : Str)
    (monorepoRoot : FsPath) : List FsPath :=
  match findDocsDir src with
  | none => []
  | some docsDir =>
    match parentFs docsDir with
    | none => []
    | some subsiteDir =>
      match fsFileName subsiteDir with
      | none => []
      | some subsiteName =>
        if hpre : docsDir.isPrefixOf src = true then
          let pathWithinDocs := src.drop docsDir.length
          let srcUrlPath := withExtEmptyComps (subsiteName :: pathWithinDocs)
          let linkPath := withExtEmptyComps (pathComps link)
          if startsWithChar '/' link then
            match urlToFilesystem isDir (normaliseUrl linkPath) subsiteName docsDir
                monorepoRoot with
            | some fs => [fs]
            | none => []
          else
            [srcUrlPath, srcUrlPath.dropLast].foldl
              (fun candidates base =>
                let normalizedUrl := normaliseUrl (base ++ linkPath)
                if normalizedUrl == [] then candidates
                else
                  match urlToFilesystem isDir normalizedUrl subsiteName docsDir
                      monorepoRoot with
                  | some fs =>
                    if candidates.contains fs then candidates else candidates ++ [fs]
                  | none => candidates)
              []
        else []

/-- `fs_path_from_link` (ghost-lib/src/lib.rs): absolute links join onto the
source's doc root's `docs/`; relative links join onto the source's parent. -/
def fsPathFromLink (src : FsPath) (link : Str) : Option FsPath :=
  if startsWithChar '/' link then
    match docsRootFor src with
    | none => none
    | some docRoot => some (docRoot ++ [docsComp] ++ pathComps link)
  else
    match parentFs src with
    | none => none
    | some base => some (base ++ pathComps link)

/-! ### The resolution cascade of analyse_links -/

/-- The read-only context a single `analyse_links` call works in: the
precomputed markdown file set, the filesystem predicates, the monorepo root
(`mkdocs_dir`), the include roots, the link maps, the help-index files, and
the external markdown parser emitting raw link strings. -/
structure ResCtx where
  filesSet : List FsPath
  isFile : FsPath → Bool
  isDir : FsPath → Bool
  mkdocsDir : FsPath
  includeDirs : List FsPath
  maps : LinkMaps
  helpFiles : List FsPath
  mdLinks : Str → List Str

/-- `check_with_index_fallback` (ghost-lib/src/lib.rs): normalise the
candidate, accept it when it is a file on disk or a member of the markdown
set, otherwise retry with `{stem}/index.md`. -/
def checkWithIndexFallback (ctx : ResCtx) (candidate : FsPath) : Option FsPath :=
  let normalized := normalizePathComps candidate
  if ctx.isFile normalized || ctx.filesSet.contains normalized then some normalized
  else
    let stem := withExtEmptyComps normalized
    let indexCandidate := stem ++ [indexStr ++ dotMd]
    if ctx.isFile indexCandidate || ctx.filesSet.contains indexCandidate then
      some indexCandidate
    else none

def firstSome (f : FsPath → Option FsPath) : List FsPath → Option FsPath
  | [] => none
  | a :: rest =>
    match f a with
    | some b => some b
    | none => firstSome f rest

/-- Strategy 1: nav-based resolution through the link maps. -/
def strat1 (ctx : ResCtx) (src : FsPath) (link : Str) : Option FsPath :=
  resolveLink src link ctx.maps

/-- Strategy 2: URL-space resolution, first candidate accepted by
`check_with_index_fallback`. -/
def strat2 (ctx : ResCtx) (src : FsPath) (link : Str) : Option FsPath :=
  firstSome (checkWithIndexFallback ctx) (resolveLinkViaUrlSpace ctx.isDir src link ctx.mkdocsDir)

/-- Strategy 3: the rendered URL checked under the source's own doc root and
then under every include root (skipped entirely when the source has no
rendered URL). -/
def strat3 (ctx : ResCtx) (src : FsPath) (link : Str) : Option FsPath :=
  match renderedUrlForLink ctx.maps src link with
  | none => none
  | some rendered =>
    match
      (match docsRootFor src with
        | some docRoot =>
          checkWithIndexFallback ctx (withExtMdComps (docRoot ++ [docsComp] ++ pathComps rendered))
        | none => none) with
    | some r => some r
    | none =>
      firstSome
        (fun dir =>
          checkWithIndexFallback ctx (withExtMdComps (dir ++ [docsComp] ++ pathComps rendered)))
        ctx.includeDirs

/-- Strategy 4: filesystem fallback from the raw link text. -/
def strat4 (ctx : ResCtx) (src : FsPath) (link : Str) : Option FsPath :=
  match fsPathFromLink src link with
  | none => none
  | some fsCandidate => checkWithIndexFallback ctx fsCandidate

/-- Strategy 5: plain join onto the source's parent. -/
def strat5 (ctx : ResCtx) (src : FsPath) (link : Str) : Option FsPath :=
  match parentFs src with
  | none => none
  | some parent => checkWithIndexFallback ctx (fsJoinStr parent link)

/-- The per-link body of `analyse_links` (ghost-lib/src/lib.rs): the five
strategies tried in order, stopping at the first success; `none` means the
link is reported broken. -/
def linkTarget (ctx : ResCtx) (src : FsPath) (link : Str) : Option FsPath :=
  match strat1 ctx src link with
  | some t => some t
  | none =>
    match strat2 ctx src link with
    | some t => some t
    | none =>
      match strat3 ctx src link with
      | some t => some t
      | none =>
        match strat4 ctx src link with
        | some t => some t
        | none => strat5 ctx src link

/-- `analyse_links` (ghost-lib/src/lib.rs): for every file and every
normalised link extracted from it, accumulate the resolved targets and the
broken-link records (the two `for` loops pushing into `referenced` and
`broken_links` are rendered as `flatMap`/`filterMap` in the same order). -/
def analyseLinks (ctx : ResCtx) (files : List (FsPath × Str)) :
    List FsPath × List BrokenLink :=
  (files.flatMap
      (fun sc => (normaliseLinks (ctx.mdLinks sc.2)).filterMap (fun link =>
        linkTarget ctx sc.1 link)),
    files.flatMap
      (fun sc => (normaliseLinks (ctx.mdLinks sc.2)).filterMap (fun link =>
        match linkTarget ctx sc.1 link with
        | some _ => none
        | none =>
          some { fromFile := sc.1, link := link, fromHelpUrl := ctx.helpFiles.contains sc.1 })))

/-! ### Claim C1: when is a broken link reported -/

theorem linkTarget_eq_none_iff (ctx : ResCtx) (src : FsPath) (link : Str) :
    linkTarget ctx src link = none ↔
      strat1 ctx src link = none ∧ strat2 ctx src link = none ∧
      strat3 ctx src link = none ∧ strat4 ctx src link = none ∧
      strat5 ctx src link = none := by
  unfold linkTarget
  cases h1 : strat1 ctx src link with
  | some t => simp [h1]
  | none =>
    cases h2 : strat2 ctx src link with
    | some t => simp [h2]
    | none =>
      cases h3 : strat3 ctx src link with
      | some t => simp [h3]
      | none =>
        cases h4 : strat4 ctx src link with
        | some t => simp [h4]
        | none => simp

/-- Claim C1 (amended): a record `{from := src, link, from_help_url}` is
appended to `broken_links` by `analyse_links` iff the link occurs (in
normalised form) in one of the scanned files and all five resolution
strategies return nothing — where strategy 1 (nav-relative URL lookup)
succeeds purely by lookup in the URL maps (with the `/index` URL retry),
irrespective of whether the target is on disk, and strategies 2–5 each test
their candidates with the `X.md`-absent-then-`X/index.md` fallback against
both the disk and the precomputed markdown-file set. -/
theorem c1_broken_link_iff (ctx : ResCtx) (files : List (FsPath × Str)) (b : BrokenLink) :
    b ∈ (analyseLinks ctx files).2 ↔
      ∃ src content, (src, content) ∈ files ∧ b.fromFile = src ∧
        b.fromHelpUrl = ctx.helpFiles.contains src ∧
        b.link ∈ normaliseLinks (ctx.mdLinks content) ∧
        strat1 ctx src b.link = none ∧ strat2 ctx src b.link = none ∧
        strat3 ctx src b.link = none ∧ strat4 ctx src b.link = none ∧
        strat5 ctx src b.link = none := by
  constructor
  · intro hb
    simp only [analyseLinks] at hb
    obtain ⟨sc, hsc, hb2⟩ := List.mem_flatMap.mp hb
    obtain ⟨link, hlink, heq⟩ := List.mem_filterMap.mp hb2
    cases ht : linkTarget ctx sc.1 link with
    | some t =>
      rw [ht] at heq
      exact absurd heq (by simp)
    | none =>
      rw [ht] at heq
      have hbe : b = ⟨sc.1, link, ctx.helpFiles.contains sc.1⟩ :=
        ((Option.some.injEq _ _).mp heq).symm
      obtain ⟨h1, h2, h3, h4, h5⟩ := (linkTarget_eq_none_iff ctx sc.1 link).mp ht
      subst hbe
      exact ⟨sc.1, sc.2, by simpa using hsc, rfl, rfl, hlink, h1, h2, h3, h4, h5⟩
  · rintro ⟨src, content, hmem, hfrom, hhelp, hlink, h1, h2, h3, h4, h5⟩
    have ht : linkTarget ctx src b.link = none :=
      (linkTarget_eq_none_iff ctx src b.link).mpr ⟨h1, h2, h3, h4, h5⟩
    simp only [analyseLinks]
    refine List.mem_flatMap.mpr ⟨(src, content), hmem, ?_⟩
    refine List.mem_filterMap.mpr ⟨b.link, hlink, ?_⟩
    rw [ht]
    cases b with
    | mk f l h =>
      simp only at hfrom hhelp
      rw [hfrom, hhelp]

/-- Whether a strategy outcome "produces a target that is a file on disk or
a member of the precomputed markdown-file set" — the success criterion that
claim C1 ascribes to all five strategies. -/
def producesOnDiskTarget (ctx : ResCtx) (res : Option FsPath) : Prop :=
  ∃ t, res = some t ∧ (ctx.isFile t = true ∨ t ∈ ctx.filesSet)

/-- The right-hand side of claim C1 as stated: every one of the five
strategies fails to produce a target that is on disk or in the markdown
set. -/
def claimC1AllFail (ctx : ResCtx) (src : FsPath) (link : Str) : Prop :=
  ¬ producesOnDiskTarget ctx (strat1 ctx src link) ∧
  ¬ producesOnDiskTarget ctx (strat2 ctx src link) ∧
  ¬ producesOnDiskTarget ctx (strat3 ctx src link) ∧
  ¬ producesOnDiskTarget ctx (strat4 ctx src link) ∧
  ¬ producesOnDiskTarget ctx (strat5 ctx src link)

def cexSrcC1 : FsPath := [("s.md").toList]

def cexTargetC1 : FsPath := [("nowhere.md").toList]

/-- A link-map state reachable when a nav entry names a file that is absent
from disk: the rendered URL `a/c` maps to a path that exists in neither the
filesystem nor the markdown set. -/
def cexMapsC1 : LinkMaps :=
  { urlToSrc := [(("a/c").toList, cexTargetC1)],
    srcToUrl := [(cexSrcC1, ("a/b").toList)] }

def cexCtxC1 : ResCtx :=
  { filesSet := [], isFile := fun _ => false, isDir := fun _ => false, mkdocsDir := [],
    includeDirs := [], maps := cexMapsC1, helpFiles := [],
    mdLinks := fun _ => [("c.md").toList] }

/-- Claim C1, counterexample: from source `s.md` the link `c.md` resolves
through the nav maps to `nowhere.md`, a target that is neither a file on
disk nor in the markdown set, and strategies 2–5 all fail — so by the
claim's criterion all five strategies "fail" and a broken link should be
appended; but `analyse_links` appends nothing, because strategy 1 succeeds
by map lookup alone, without any disk or set check. -/
theorem c1_counterexample :
    (analyseLinks cexCtxC1 [(cexSrcC1, ("page").toList)]).2 = [] ∧
      claimC1AllFail cexCtxC1 cexSrcC1 (("c.md").toList) ∧
      strat1 cexCtxC1 cexSrcC1 (("c.md").toList) = some cexTargetC1 := by
  refine ⟨rfl, ⟨?_, ?_, ?_, ?_, ?_⟩, rfl⟩
  · rintro ⟨t, ht, hd⟩
    have h1 : strat1 cexCtxC1 cexSrcC1 (("c.md").toList) = some cexTargetC1 := rfl
    rw [h1] at ht
    have hte : t = cexTargetC1 := ((Option.some.injEq _ _).mp ht).symm
    subst hte
    rcases hd with hd | hd
    · exact absurd hd (by decide)
    · simp [cexCtxC1] at hd
  · rintro ⟨t, ht, _⟩
    have h2 : strat2 cexCtxC1 cexSrcC1 (("c.md").toList) = none := rfl
    rw [h2] at ht
    exact absurd ht (by simp)
  · rintro ⟨t, ht, _⟩
    have h3 : strat3 cexCtxC1 cexSrcC1 (("c.md").toList) = none := rfl
    rw [h3] at ht
    exact absurd ht (by simp)
  · rintro ⟨t, ht, _⟩
    have h4 : strat4 cexCtxC1 cexSrcC1 (("c.md").toList) = none := rfl
    rw [h4] at ht
    exact absurd ht (by simp)
  · rintro ⟨t, ht, _⟩
    have h5 : strat5 cexCtxC1 cexSrcC1 (("c.md").toList) = none := rfl
    rw [h5] at ht
    exact absurd ht (by simp)

/-! ### Claim C2: ghost files -/

def printSuffix : Str := ("-print.md").toList

/-- The print-variant exclusion of `orphans` (ghost-lib/src/lib.rs):
`p.file_name()` ends with `"-print.md"` (false when there is no file
name). -/
def isPrintVariant (p : FsPath) : Bool :=
  match fsFileName p with
  | some n => endsWithStr printSuffix n
  | none => false

/-- `orphans` (ghost-lib/src/lib.rs): on-disk markdown files that are not
nav pages, excluding `-print.md` print variants. -/
def orphans (nav : List FsPath) (files : List FsPath) : List FsPath :=
  (files.filter (fun p => !(nav.contains p))).filter (fun p => !(isPrintVariant p))

/-- The ghost list as `audit` computes it: `orphans` followed by
`ghost.retain(|p| !all_referenced.contains(p))`. -/
def ghostAfterScan (nav files referenced : List FsPath) : List FsPath :=
  (orphans nav files).filter (fun p => !(referenced.contains p))

/-- Claim C2: an on-disk markdown file is in the audit's ghost list iff it is
not a nav page, not in the transitively-accumulated referenced set, and its
file name does not end in `-print.md`. -/
theorem c2_ghost_iff (nav files referenced : List FsPath) (F : FsPath) (hF : F ∈ files) :
    F ∈ ghostAfterScan nav files referenced ↔
      (F ∉ nav ∧ F ∉ referenced ∧ isPrintVariant F = false) := by
  unfold ghostAfterScan orphans
  simp only [List.mem_filter, Bool.not_eq_true']
  constructor
  · rintro ⟨⟨⟨_, hnav⟩, hprint⟩, href⟩
    simp at hnav href
    exact ⟨hnav, href, hprint⟩
  · rintro ⟨hnav, href, hprint⟩
    refine ⟨⟨⟨hF, ?_⟩, hprint⟩, ?_⟩
    · simpa using hnav
    · simpa using href

/-- Witness for C2 at a concrete input: `a/docs/a.md` is on disk, unlisted,
unreferenced and not a print variant, hence ghost; the `-print.md` exclusion
also fires on `a/docs/b-print.md`. -/
theorem c2_ghost_iff_witness :
    ([("a").toList, ("docs").toList, ("a.md").toList]
        ∈ ghostAfterScan [] [[("a").toList, ("docs").toList, ("a.md").toList]] [] ↔
      ([("a").toList, ("docs").toList, ("a.md").toList] ∉ ([] : List FsPath) ∧
        [("a").toList, ("docs").toList, ("a.md").toList] ∉ ([] : List FsPath) ∧
        isPrintVariant [("a").toList, ("docs").toList, ("a.md").toList] = false)) ∧
      isPrintVariant [("a").toList, ("docs").toList, ("b-print.md").toList] = true := by
  constructor
  · exact c2_ghost_iff [] [[("a").toList, ("docs").toList, ("a.md").toList]] []
      [("a").toList, ("docs").toList, ("a.md").toList] (by decide)
  · decide

/-! ### Claim C4: page-as-directory preference -/

def srcC4 : FsPath :=
  [("windows-guide").toList, ("docs").toList, ("config-params").toList,
    ("aplan-for-output.md").toList]

def linkC4 : Str := ("../aplan-for-editor.md").toList

def pageAsDirC4 : FsPath :=
  [("windows-guide").toList, ("docs").toList, ("config-params").toList,
    ("aplan-for-editor.md").toList]

def parentModelC4 : FsPath :=
  [("windows-guide").toList, ("docs").toList, ("aplan-for-editor.md").toList]

/-- Claim C4: from `windows-guide/docs/config-params/aplan-for-output.md`,
the link `../aplan-for-editor.md` produces the page-as-directory candidate
`windows-guide/docs/config-params/aplan-for-editor.md` before the
plain-filesystem-parent candidate `windows-guide/docs/aplan-for-editor.md`,
and when the nav-map strategy fails and both candidate files exist, the
resolution picks the page-as-directory one. -/
theorem c4_page_as_directory_preferred (ctx : ResCtx)
    (hroot : ctx.mkdocsDir = [])
    (hnav : strat1 ctx srcC4 linkC4 = none)
    (hfile1 : pageAsDirC4 ∈ ctx.filesSet) (hfile2 : parentModelC4 ∈ ctx.filesSet) :
    resolveLinkViaUrlSpace ctx.isDir srcC4 linkC4 ctx.mkdocsDir
        = [pageAsDirC4, parentModelC4] ∧
      linkTarget ctx srcC4 linkC4 = some pageAsDirC4 := by
  have hcand : resolveLinkViaUrlSpace ctx.isDir srcC4 linkC4 ctx.mkdocsDir
      = [pageAsDirC4, parentModelC4] := by
    rw [hroot]
    rfl
  refine ⟨hcand, ?_⟩
  have hcont : ctx.filesSet.contains pageAsDirC4 = true := by simpa using hfile1
  have hcheck : checkWithIndexFallback ctx pageAsDirC4 = some pageAsDirC4 := by
    have hnorm : normalizePathComps pageAsDirC4 = pageAsDirC4 := rfl
    simp only [checkWithIndexFallback, hnorm, hcont]
    simp
  have hs2 : strat2 ctx srcC4 linkC4 = some pageAsDirC4 := by
    unfold strat2
    rw [hcand]
    unfold firstSome
    rw [hcheck]
  unfold linkTarget
  rw [hnav, hs2]

def cexCtxC4 : ResCtx :=
  { filesSet := [pageAsDirC4, parentModelC4], isFile := fun _ => false,
    isDir := fun _ => false, mkdocsDir := [], includeDirs := [],
    maps := { urlToSrc := [], srcToUrl := [] }, helpFiles := [],
    mdLinks := fun _ => [] }

/-- Witness for C4: a concrete context with empty link maps (so the nav-map
strategy fails) and both candidate files present in the markdown set. -/
theorem c4_page_as_directory_preferred_witness :
    resolveLinkViaUrlSpace cexCtxC4.isDir srcC4 linkC4 cexCtxC4.mkdocsDir
        = [pageAsDirC4, parentModelC4] ∧
      linkTarget cexCtxC4 srcC4 linkC4 = some pageAsDirC4 :=
  c4_page_as_directory_preferred cexCtxC4 rfl rfl (by decide) (by decide)

/-! ### Claim C3: resolving and mapping back through src_to_url -/

theorem lookupAssoc_append_single {α β : Type} [BEq α] (m : List (α × β)) (k k' : α) (v : β) :
    lookupAssoc (m ++ [(k, v)]) k' =
      match lookupAssoc m k' with
      | some x => some x
      | none => if k == k' then some v else none := by
  unfold lookupAssoc
  rw [List.find?_append]
  cases h : (m.find? (fun e => e.1 == k')) with
  | some e => simp [h]
  | none =>
    simp only [h, Option.none_or, Option.map_none]
    by_cases hk : (k == k') = true
    · simp [List.find?, hk]
    · simp [List.find?, hk]

theorem lookupAssoc_insert_preserve {α β : Type} [BEq α] (m : List (α × β)) (k : α) (v : β)
    {k' : α} {v' : β} (h : lookupAssoc m k' = some v') :
    lookupAssoc (insertAssoc m k v) k' = some v' := by
  unfold insertAssoc
  cases h0 : lookupAssoc m k with
  | some _ => exact h
  | none =>
    rw [lookupAssoc_append_single, h]

theorem lookupAssoc_insert_self_isSome {α β : Type} [BEq α] [LawfulBEq α]
    (m : List (α × β)) (k : α) (v : β) :
    (lookupAssoc (insertAssoc m k v) k).isSome = true := by
  unfold insertAssoc
  cases h0 : lookupAssoc m k with
  | some _ =>
    rw [h0]
    rfl
  | none =>
    rw [lookupAssoc_append_single, h0]
    simp

/-- The pairing invariant of `insert_mapping`: every `url_to_src` target has
an entry in `src_to_url`. -/
def linkMapsWF (m : LinkMaps) : Prop :=
  ∀ r t, lookupUrlToSrc m.urlToSrc r = some t → (lookupSrcToUrl m.srcToUrl t).isSome = true

theorem insertMapping_wf (navPath : Str) (mkdocsDir : FsPath) (pre : List Str)
    (m : LinkMaps) (h : linkMapsWF m) :
    linkMapsWF (insertMapping navPath mkdocsDir pre m) := by
  intro r t hrt
  simp only [insertMapping, insertUrlToSrc, insertSrcToUrl, lookupUrlToSrc,
    lookupSrcToUrl] at hrt ⊢
  set fsP := fsJoinStr (fsJoinStr mkdocsDir docsComp) navPath with hfsP
  set rendered := renderedForNav navPath pre with hrendered
  unfold insertAssoc at hrt
  cases h0 : lookupAssoc m.urlToSrc rendered with
  | some v =>
    rw [h0] at hrt
    have hrt2 : lookupAssoc m.urlToSrc r = some t := hrt
    have hwf : (lookupSrcToUrl m.srcToUrl t).isSome = true := h r t hrt2
    obtain ⟨u, hu⟩ := Option.isSome_iff_exists.mp hwf
    have hu2 : lookupAssoc m.srcToUrl t = some u := hu
    rw [lookupAssoc_insert_preserve m.srcToUrl fsP rendered hu2]
    rfl
  | none =>
    rw [h0] at hrt
    have hrt2 : lookupAssoc (m.urlToSrc ++ [(rendered, fsP)]) r = some t := hrt
    rw [lookupAssoc_append_single] at hrt2
    cases h1 : lookupAssoc m.urlToSrc r with
    | some t2 =>
      rw [h1] at hrt2
      have ht2 : some t2 = some t := hrt2
      have ht3 : t2 = t := by simpa using ht2
      subst ht3
      have hwf : (lookupSrcToUrl m.srcToUrl t2).isSome = true := h r t2 h1
      obtain ⟨u, hu⟩ := Option.isSome_iff_exists.mp hwf
      have hu2 : lookupAssoc m.srcToUrl t2 = some u := hu
      rw [lookupAssoc_insert_preserve m.srcToUrl fsP rendered hu2]
      rfl
    | none =>
      rw [h1] at hrt2
      by_cases hk : (rendered == r) = true
      · rw [if_pos hk] at hrt2
        have ht : some fsP = some t := hrt2
        have ht2 : fsP = t := by simpa using ht
        subst ht2
        exact lookupAssoc_insert_self_isSome m.srcToUrl fsP rendered
      · rw [if_neg hk] at hrt2
        exact absurd hrt2 (by simp)

/-- The link maps reachable by a sequence of `insert_mapping` calls
(`build_link_maps_inner` performs exactly such a sequence, one call per nav
leaf, with varying prefixes). -/
def applyInsertMappings (entries : List (Str × FsPath × List Str)) : LinkMaps :=
  entries.foldl (fun m e => insertMapping e.1 e.2.1 e.2.2 m) { urlToSrc := [], srcToUrl := [] }

theorem foldl_insertMapping_wf (entries : List (Str × FsPath × List Str)) :
    ∀ m : LinkMaps, linkMapsWF m →
      linkMapsWF (entries.foldl (fun m e => insertMapping e.1 e.2.1 e.2.2 m) m) := by
  induction entries with
  | nil => exact fun m h => h
  | cons e rest ih =>
    intro m h
    exact ih _ (insertMapping_wf e.1 e.2.1 e.2.2 m h)

theorem applyInsertMappings_wf (entries : List (Str × FsPath × List Str)) :
    linkMapsWF (applyInsertMappings entries) :=
  foldl_insertMapping_wf entries _ (fun r t h => by simp [lookupUrlToSrc, lookupAssoc] at h)

theorem lookupUrl_eq (rendered : Str) (m : List (Str × FsPath)) :
    lookupUrl rendered m =
      match lookupUrlToSrc m rendered with
      | some p => some p
      | none =>
        match lookupUrlToSrc m (trimEndSlashes rendered) with
        | some p => some p
        | none => lookupUrlToSrc m (trimEndSlashes rendered ++ '/' :: indexStr) := rfl

theorem lookupUrl_cases (rendered : Str) (m : List (Str × FsPath)) (t : FsPath)
    (h : lookupUrl rendered m = some t) :
    lookupUrlToSrc m rendered = some t ∨
      lookupUrlToSrc m (trimEndSlashes rendered) = some t ∨
      lookupUrlToSrc m (trimEndSlashes rendered ++ '/' :: indexStr) = some t := by
  rw [lookupUrl_eq] at h
  cases h1 : lookupUrlToSrc m rendered with
  | some p =>
    rw [h1] at h
    have h' : some p = some t := h
    exact Or.inl h'
  | none =>
    rw [h1] at h
    have h' : (match lookupUrlToSrc m (trimEndSlashes rendered) with
      | some p => some p
      | none => lookupUrlToSrc m (trimEndSlashes rendered ++ '/' :: indexStr)) = some t := h
    cases h2 : lookupUrlToSrc m (trimEndSlashes rendered) with
    | some p =>
      rw [h2] at h'
      have h2' : some p = some t := h'
      exact Or.inr (Or.inl h2')
    | none =>
      rw [h2] at h'
      exact Or.inr (Or.inr h')

/-- Claim C3 (amended): for maps built by `insert_mapping`, whenever
`resolve_link` returns `Some(target)`, the target does have an entry in
`src_to_url` (the first URL ever inserted for it), and `url_to_src` maps the
normalised rendered URL — or that URL with trailing slashes trimmed, or with
`/index` appended — back to exactly the target; the `src_to_url` entry
itself need not equal the rendered URL used for resolution. -/
theorem c3_resolve_roundtrip_amended (entries : List (Str × FsPath × List Str))
    (src : FsPath) (link : Str) (t : FsPath)
    (h : resolveLink src link (applyInsertMappings entries) = some t) :
    (lookupSrcToUrl (applyInsertMappings entries).srcToUrl t).isSome = true ∧
      ∃ r, renderedUrlForLink (applyInsertMappings entries) src link = some r ∧
        (lookupUrlToSrc (applyInsertMappings entries).urlToSrc r = some t ∨
          lookupUrlToSrc (applyInsertMappings entries).urlToSrc (trimEndSlashes r) = some t ∨
          lookupUrlToSrc (applyInsertMappings entries).urlToSrc
            (trimEndSlashes r ++ '/' :: indexStr) = some t) := by
  unfold resolveLink at h
  cases hr : renderedUrlForLink (applyInsertMappings entries) src link with
  | none =>
    rw [hr] at h
    exact absurd h (by simp)
  | some r =>
    rw [hr] at h
    have hcases := lookupUrl_cases r (applyInsertMappings entries).urlToSrc t h
    refine ⟨?_, r, rfl, hcases⟩
    rcases hcases with hc | hc | hc
    · exact applyInsertMappings_wf entries _ t hc
    · exact applyInsertMappings_wf entries _ t hc
    · exact applyInsertMappings_wf entries _ t hc

def cexEntriesC3 : List (Str × FsPath × List Str) :=
  [(("c.md").toList, [], []), (("b/index.md").toList, [], [])]

def cexSrcC3 : FsPath := [("docs").toList, ("c.md").toList]

def cexTargetC3 : FsPath := [("docs").toList, ("b").toList, ("index.md").toList]

/-- Claim C3, counterexample: with nav leaves `c.md` and `b/index.md`, the
link `b.md` from `docs/c.md` has rendered URL `b`, resolved via the
`/index` fallback of `lookup_url` to `docs/b/index.md`; mapping that target
back through `src_to_url` yields `b/index`, not the rendered URL `b` that
was used for resolution. -/
theorem c3_counterexample :
    resolveLink cexSrcC3 (("b.md").toList) (applyInsertMappings cexEntriesC3)
        = some cexTargetC3 ∧
      renderedUrlForLink (applyInsertMappings cexEntriesC3) cexSrcC3 (("b.md").toList)
        = some (("b").toList) ∧
      lookupSrcToUrl (applyInsertMappings cexEntriesC3).srcToUrl cexTargetC3
        = some (("b/index").toList) ∧
      ¬ (("b/index").toList : Str) = ("b").toList := by
  exact ⟨rfl, rfl, rfl, by decide⟩

/-- Witness for the amended C3 at the same concrete maps. -/
theorem c3_resolve_roundtrip_amended_witness :
    (lookupSrcToUrl (applyInsertMappings cexEntriesC3).srcToUrl cexTargetC3).isSome = true ∧
      ∃ r, renderedUrlForLink (applyInsertMappings cexEntriesC3) cexSrcC3 (("b.md").toList)
          = some r ∧
        (lookupUrlToSrc (applyInsertMappings cexEntriesC3).urlToSrc r = some cexTargetC3 ∨
          lookupUrlToSrc (applyInsertMappings cexEntriesC3).urlToSrc (trimEndSlashes r)
            = some cexTargetC3 ∨
          lookupUrlToSrc (applyInsertMappings cexEntriesC3).urlToSrc
            (trimEndSlashes r ++ '/' :: indexStr) = some cexTargetC3) :=
  c3_resolve_roundtrip_amended cexEntriesC3 cexSrcC3 (("b.md").toList) cexTargetC3 rfl

/-! ### Nav tree, page collection and link-map construction -/

/-- The nav tree of tagged variants (`NavItem` in ghost-lib/src/lib.rs); the
single-key YAML maps are modelled as entry lists. -/
inductive NavItem where
  | page (entries : List (Str × Str))
  | sect (entries : List (Str × List NavItem))
  | plain (path : Str)

def includeTok : Str := ("!include").toList

def isQuote (c : Char) : Bool := c == '"' || c == '\''

def trimQuotes (s : Str) : Str :=
  ((s.dropWhile isQuote).reverse.dropWhile isQuote).reverse

/-- `parse_include_target` (ghost-lib/src/lib.rs). -/
def parseIncludeTarget (value : Str) : Option Str :=
  let trimmed := trimStr value
  if includeTok.isPrefixOf trimmed then
    some (trimQuotes (trimStr (trimmed.drop includeTok.length)))
  else none

/-- The filesystem as the audit sees it: file reads, file/directory tests,
the recursive-walk service (spec §1: walks are an external service yielding a
file list), and the finite set of files that can be read at all (spec §5:
inputs are local files assumed stable for the run). -/
structure Env where
  read : FsPath → Option Str
  isFile : FsPath → Bool
  isDir : FsPath → Bool
  pathExists : FsPath → Bool
  walkFiles : FsPath → Except Str (List FsPath)
  files : List FsPath

/-- The external decoders and scanners the spec places out of scope: the YAML
nav decoder, the markdown/HTML link and image parsers, and the regular
expression scanners for CSS `url(...)`, `#define` and `HELP_URL` captures. -/
structure Oracle where
  yamlNav : Str → Option (List NavItem)
  mdLinks : Str → List Str
  mdImages : Str → List Str
  cssUrls : Str → List Str
  defines : Str → List (Str × Str)
  helpCalls : Str → List Str

/-- `HashSet::insert` on an insertion-ordered list model. -/
def insertNew (l : List FsPath) (p : FsPath) : List FsPath :=
  if l.contains p then l else l ++ [p]

def insertAll (l : List FsPath) (ps : List FsPath) : List FsPath :=
  ps.foldl insertNew l

def errNoFuel : Str := ("include recursion depth exceeded").toList

def errIncludeRead : Str := ("failed to read included nav file").toList

def errIncludeDecode : Str := ("failed to decode included nav file").toList

def errIncludeParent : Str :=
  ("included mkdocs file must reside within a directory").toList

/-- `collect_pages` together with `collect_include`
(ghost-lib/src/lib.rs): walk the nav list, inserting
`prefix/docs/<path>` for every leaf and recursing into includes with the
prefix rebound to the included file's parent; any unreadable or undecodable
include aborts with an error.  The `fuel` argument bounds the include
recursion depth, which is unbounded in the source (a cyclic include
overflows the stack there; running out of fuel is modelled as an error). -/
def collectPagesList (env : Env) (orc : Oracle) :
    Nat → List NavItem → FsPath → List FsPath → Except Str (List FsPath)
  | _, [], _, acc => .ok acc
  | fuel, .plain path :: rest, pre, acc =>
    collectPagesList env orc fuel rest pre
      (insertNew acc (fsJoinStr (fsJoinStr pre docsComp) path))
  | fuel, .page [] :: rest, pre, acc => collectPagesList env orc fuel rest pre acc
  | fuel, .page ((_, path) :: more) :: rest, pre, acc =>
    match parseIncludeTarget path with
    | none =>
      collectPagesList env orc fuel (.page more :: rest) pre
        (insertNew acc (fsJoinStr (fsJoinStr pre docsComp) path))
    | some ip =>
      match fuel with
      | 0 => .error errNoFuel
      | n + 1 =>
        match env.read (fsJoinStr pre ip) with
        | none => .error errIncludeRead
        | some contents =>
          match orc.yamlNav contents with
          | none => .error errIncludeDecode
          | some nav2 =>
            match parentFs (fsJoinStr pre ip) with
            | none => .error errIncludeParent
            | some par =>
              match collectPagesList env orc n nav2 par acc with
              | .error e => .error e
              | .ok acc2 => collectPagesList env orc (n + 1) (.page more :: rest) pre acc2
  | fuel, .sect [] :: rest, pre, acc => collectPagesList env orc fuel rest pre acc
  | fuel, .sect ((_, children) :: more) :: rest, pre, acc =>
    match collectPagesList env orc fuel children pre acc with
    | .error e => .error e
    | .ok acc2 => collectPagesList env orc fuel (.sect more :: rest) pre acc2
termination_by fuel nav _ _ => (fuel, sizeOf nav)

/-- `include_roots` (ghost-lib/src/lib.rs): the parent directories of every
`!include` target, collected without touching the filesystem. -/
def includeRootsList : List NavItem → FsPath → List FsPath → List FsPath
  | [], _, acc => acc
  | .plain _ :: rest, pre, acc => includeRootsList rest pre acc
  | .page [] :: rest, pre, acc => includeRootsList rest pre acc
  | .page ((_, path) :: more) :: rest, pre, acc =>
    (match parseIncludeTarget path with
      | none => includeRootsList (.page more :: rest) pre acc
      | some ip =>
        match parentFs (fsJoinStr pre ip) with
        | none => includeRootsList (.page more :: rest) pre acc
        | some par => includeRootsList (.page more :: rest) pre (insertNew acc par))
  | .sect [] :: rest, pre, acc => includeRootsList rest pre acc
  | .sect ((_, children) :: more) :: rest, pre, acc =>
    includeRootsList (.sect more :: rest) pre (includeRootsList children pre acc)
termination_by nav _ _ => sizeOf nav

def includeRoots (nav : List NavItem) (pre : FsPath) : List FsPath :=
  includeRootsList nav pre []

def isAlnumAscii (c : Char) : Bool :=
  ('A' ≤ c && c ≤ 'Z') || ('a' ≤ c && c ≤ 'z') || ('0' ≤ c && c ≤ '9')

def asciiLower (c : Char) : Char :=
  if 'A' ≤ c && c ≤ 'Z' then Char.ofNat (c.toNat + 32) else c

/-- Replace each maximal run of non-alphanumeric characters by one hyphen
(the regex `[^A-Za-z0-9]+` → `-`); the fuel is the string length, which
bounds the recursion since every step consumes at least one character. -/
def slugReplaceFuel : Nat → Str → Str
  | _, [] => []
  | 0, s => s
  | n + 1, c :: rest =>
    if isAlnumAscii c then c :: slugReplaceFuel n rest
    else '-' :: slugReplaceFuel n (rest.dropWhile (fun d => !(isAlnumAscii d)))

def trimDashes (s : Str) : Str :=
  ((s.dropWhile (fun c => c == '-')).reverse.dropWhile (fun c => c == '-')).reverse

/-- `slugify` (ghost-lib/src/lib.rs): hyphenate non-alphanumeric runs, trim
hyphens, ASCII-lowercase. -/
def slugify (s : Str) : Str :=
  (trimDashes (slugReplaceFuel s.length s)).map asciiLower

/-- `build_link_maps_inner` (ghost-lib/src/lib.rs): one `insert_mapping` per
leaf; sections extend the URL prefix by the slug of their title; includes
re-root at the included file's parent and extend the prefix by that parent's
path relative to the site root; include read/decode failures abort. -/
def buildLinkMapsInner (env : Env) (orc : Oracle) :
    Nat → List NavItem → FsPath → FsPath → List Str → LinkMaps → Except Str LinkMaps
  | _, [], _, _, _, maps => .ok maps
  | fuel, .plain path :: rest, dir, root, pre, maps =>
    buildLinkMapsInner env orc fuel rest dir root pre (insertMapping path dir pre maps)
  | fuel, .page [] :: rest, dir, root, pre, maps =>
    buildLinkMapsInner env orc fuel rest dir root pre maps
  | fuel, .page ((_, path) :: more) :: rest, dir, root, pre, maps =>
    match parseIncludeTarget path with
    | none =>
      buildLinkMapsInner env orc fuel (.page more :: rest) dir root pre
        (insertMapping path dir pre maps)
    | some ip =>
      match fuel with
      | 0 => .error errNoFuel
      | n + 1 =>
        match env.read (fsJoinStr dir ip) with
        | none => .error errIncludeRead
        | some contents =>
          match orc.yamlNav contents with
          | none => .error errIncludeDecode
          | some nav2 =>
            match parentFs (fsJoinStr dir ip) with
            | none => .error errIncludeParent
            | some includeParent =>
              let childPre :=
                if root.isPrefixOf includeParent then
                  pre ++ includeParent.drop root.length
                else pre
              match buildLinkMapsInner env orc n nav2 includeParent root childPre maps with
              | .error e => .error e
              | .ok maps2 =>
                buildLinkMapsInner env orc (n + 1) (.page more :: rest) dir root pre maps2
  | fuel, .sect [] :: rest, dir, root, pre, maps =>
    buildLinkMapsInner env orc fuel rest dir root pre maps
  | fuel, .sect ((title, children) :: more) :: rest, dir, root, pre, maps =>
    match buildLinkMapsInner env orc fuel children dir root
        (pre ++ pathComps (slugify title)) maps with
    | .error e => .error e
    | .ok maps2 => buildLinkMapsInner env orc fuel (.sect more :: rest) dir root pre maps2
termination_by fuel nav _ _ _ _ => (fuel, sizeOf nav)

/-- `build_link_maps` (ghost-lib/src/lib.rs). -/
def buildLinkMaps (env : Env) (orc : Oracle) (fuel : Nat) (nav : List NavItem)
    (mkdocsDir : FsPath) : Except Str LinkMaps :=
  buildLinkMapsInner env orc fuel nav mkdocsDir mkdocsDir [] { urlToSrc := [], srcToUrl := [] }

/-- `missing_files` (ghost-lib/src/lib.rs). -/
def missingFiles (env : Env) (pages : List FsPath) : List FsPath :=
  pages.filter (fun p => !(env.isFile p))

/-- `find_markdown` (ghost-lib/src/lib.rs): walk every root (walks are the
external service `env.walkFiles`, yielding the files under a root),
keep `.md` files, propagate walk errors. -/
def findMarkdown (env : Env) : List FsPath → Except Str (List FsPath)
  | [] => .ok []
  | root :: rest =>
    match env.walkFiles root with
    | .error e => .error e
    | .ok entries =>
      match findMarkdown env rest with
      | .error e => .error e
      | .ok out => .ok (entries.filter (fun p => fsExtension p == some mdStr) ++ out)

/-! ### Help index (strip_c_comments / expand_url / inject_docs / extract_help_urls) -/

/-- The character loop of `strip_c_comments` (ghost-lib/src/lib.rs); the
boolean is the `in_block_comment` flag, and the fuel (the input length)
bounds the recursion since every step consumes at least one character. -/
def stripCCommentsFuel : Nat → Bool → Str → Str
  | _, _, [] => []
  | 0, _, s => s
  | n + 1, true, '*' :: '/' :: rest => stripCCommentsFuel n false rest
  | n + 1, true, _ :: rest => stripCCommentsFuel n true rest
  | n + 1, false, '/' :: '/' :: rest =>
    (match rest.dropWhile (fun c => !(c == '\n')) with
      | [] => []
      | _ :: r => '\n' :: stripCCommentsFuel n false r)
  | n + 1, false, '/' :: '*' :: rest => stripCCommentsFuel n true rest
  | n + 1, false, c :: rest => c :: stripCCommentsFuel n false rest

def stripCComments (s : Str) : Str :=
  stripCCommentsFuel s.length false s

/-- `expand_url` (ghost-lib/src/lib.rs): split the raw second argument on
`"`, trim each part, skip empties, expand macro names through the define
map, and concatenate. -/
def expandUrl (raw : Str) (defsMap : List (Str × Str)) : Str :=
  (splitOn '"' raw).foldl
    (fun result part =>
      let trimmed := trimStr part
      if trimmed == [] then result
      else
        match lookupAssoc defsMap trimmed with
        | some expanded => result ++ expanded
        | none => result ++ trimmed)
    []

/-- `inject_docs` (ghost-lib/src/lib.rs): insert `docs` after the first path
component. -/
def injectDocs (p : Str) : Str :=
  match pathComps p with
  | [] => docsComp
  | first :: rest => joinSlash (first :: docsComp :: rest)

/-- `extract_help_urls` (ghost-lib/src/lib.rs): `none` models the `expect`
panic when the help-urls file cannot be read; otherwise comments are
stripped, the `#define` macros collected (values trimmed), and every
`HELP_URL` second argument expanded, `docs`-injected, suffixed with `.md`
and joined onto the doc root. -/
def extractHelpUrls (env : Env) (orc : Oracle) (path : FsPath) (docRoot : FsPath) :
    Option (List FsPath) :=
  match env.read path with
  | none => none
  | some rawContent =>
    let content := stripCComments rawContent
    let defsMap := (orc.defines content).map (fun e => (e.1, trimStr e.2))
    some ((orc.helpCalls content).map (fun raw =>
      let expanded := expandUrl (trimStr raw) defsMap
      let withDocs := injectDocs expanded
      fsJoinStr docRoot (withDocs ++ dotMd)))

/-! ### The transitive scan (the while loop of audit) -/

structure ScanState where
  toScan : List FsPath
  scanned : List FsPath
  referenced : List FsPath
  broken : List BrokenLink

/-- One iteration of audit's while loop (ghost-lib/src/lib.rs, lines
117-145): read every not-yet-scanned worklist file, mark the read ones
scanned, exit when the worklist is empty or nothing new was read, otherwise
analyse links and move the newly referenced on-disk files onto the
worklist. -/
def scanStep (env : Env) (ctx : ResCtx) (s : ScanState) : Option ScanState :=
  if s.toScan.isEmpty then none
  else
    let fileContents := (s.toScan.filter (fun p => !(s.scanned.contains p))).filterMap
      (fun p => (env.read p).map (fun c => (p, c)))
    let scanned2 := insertAll s.scanned (fileContents.map Prod.fst)
    if fileContents.isEmpty then none
    else
      let res := analyseLinks ctx fileContents
      some
        { toScan := res.1.filter (fun p => !(scanned2.contains p) && env.isFile p),
          scanned := scanned2,
          referenced := insertAll s.referenced res.1,
          broken := s.broken ++ res.2 }

/-- The while loop, run for at most `fuel` iterations; claim C8's theorem
shows that `env.files.length + 1` iterations always reach the exit. -/
def runScan (env : Env) (ctx : ResCtx) : Nat → ScanState → ScanState
  | 0, s => s
  | n + 1, s =>
    match scanStep env ctx s with
    | none => s
    | some s2 => runScan env ctx n s2

/-! ### Images, footnotes and the audit result -/

def dataPat : Str := ("data:").toList

def imageExts : List Str :=
  [("png").toList, ("jpg").toList, ("jpeg").toList, ("gif").toList, ("svg").toList,
    ("webp").toList, ("ico").toList, ("bmp").toList]

def lowerStr (s : Str) : Str := s.map asciiLower

/-- The image-extension filter of audit's image walk (`to_lowercase` is
modelled for ASCII, which covers every listed extension). -/
def isImageFile (p : FsPath) : Bool :=
  match fsExtension p with
  | some e => imageExts.contains (lowerStr e)
  | none => false

/-- `normalise_image_refs` (ghost-lib/src/lib.rs). -/
def normaliseImageRefs (refs : List Str) : List Str :=
  refs.filter (fun r =>
    !(startsWithStr httpSlashPat r || startsWithStr httpsSlashPat r ||
      startsWithStr dataPat r))

/-- The capture post-processing of `extract_css_image_refs`: trim, drop
`data:`/`http(s)://`. -/
def extractCssRefs (orc : Oracle) (css : Str) : List Str :=
  (orc.cssUrls css).filterMap (fun cap =>
    let url := trimStr cap
    if startsWithStr dataPat url || startsWithStr httpSlashPat url ||
        startsWithStr httpsSlashPat url then none
    else some url)

/-- `resolve_image_ref` (ghost-lib/src/lib.rs). -/
def resolveImageRef (env : Env) (src : FsPath) (imgRef : Str) (allImages : List FsPath)
    (includeDirs : List FsPath) : Option FsPath :=
  if startsWithChar '/' imgRef then
    firstSome
      (fun dir =>
        let docsDir := dir ++ [docsComp]
        let candidate :=
          if env.pathExists docsDir then normalizePathComps (fsJoinStr docsDir (imgRef.drop 1))
          else normalizePathComps (fsJoinStr dir (imgRef.drop 1))
        if allImages.contains candidate then some candidate else none)
      includeDirs
  else
    match
      (match parentFs src with
        | some parent =>
          let candidate := normalizePathComps (fsJoinStr parent imgRef)
          if allImages.contains candidate then some candidate
          else if env.isFile candidate then some candidate
          else none
        | none => none) with
    | some found => some found
    | none =>
      firstSome
        (fun dir =>
          let docsDir := dir ++ [docsComp]
          if env.pathExists docsDir then
            (let candidate := normalizePathComps (fsJoinStr docsDir imgRef)
             if allImages.contains candidate then some candidate else none)
          else none)
        includeDirs

/-- `analyse_image_refs` (ghost-lib/src/lib.rs): markdown-sourced unresolved
references are reported missing; CSS-sourced ones are only used to mark
referenced images. -/
def analyseImageRefs (env : Env) (orc : Oracle) (markdownFiles : List FsPath)
    (cssFiles : List FsPath) (allImages : List FsPath) (includeDirs : List FsPath) :
    List BrokenImage × List FsPath :=
  let mdPass :=
    markdownFiles.foldl
      (fun acc src =>
        match env.read src with
        | some content =>
          (normaliseImageRefs (orc.mdImages content)).foldl
            (fun acc2 imgRef =>
              match resolveImageRef env src imgRef allImages includeDirs with
              | some resolved => (acc2.1, insertNew acc2.2 resolved)
              | none => (acc2.1 ++ [{ fromFile := src, image := imgRef }], acc2.2))
            acc
        | none => acc)
      ([], [])
  cssFiles.foldl
    (fun acc cssPath =>
      match env.read cssPath with
      | some content =>
        (extractCssRefs orc content).foldl
          (fun acc2 imgRef =>
            match resolveImageRef env cssPath imgRef allImages includeDirs with
            | some resolved => (acc2.1, insertNew acc2.2 resolved)
            | none => acc2)
          acc
      | none => acc)
    mdPass

/-- Does a footnote pattern `[^...]` (nonempty body without `]`) start
here? -/
def footnoteFrom : Str → Bool
  | '[' :: '^' :: rest =>
    !(rest.takeWhile (fun c => !(c == ']'))).isEmpty &&
      !(rest.dropWhile (fun c => !(c == ']'))).isEmpty
  | _ => false

/-- `has_footnotes` (ghost-lib/src/lib.rs): the regex `\[\^[^\]]+\]`
matches somewhere in the content. -/
def hasFootnotes : Str → Bool
  | [] => false
  | c :: rest => footnoteFrom (c :: rest) || hasFootnotes rest

structure AuditResult where
  navMissing : List FsPath
  ghost : List FsPath
  helpMissing : List FsPath
  brokenLinks : List BrokenLink
  missingImages : List BrokenImage
  orphanImages : List FsPath
  pagesWithFootnotes : List FsPath
deriving DecidableEq

/-- The observable outcome of `audit`: a result, an `Err` return, or a
process-aborting panic. -/
inductive Outcome where
  | ok (result : AuditResult)
  | err (e : Str)
  | panicked (msg : Str)
deriving DecidableEq

def errTopRead : Str := ("failed to read mkdocs file").toList

def errTopDecode : Str := ("failed to decode mkdocs file").toList

def errNoParent : Str := ("mkdocs file must reside within a directory").toList

/-- The data audit has accumulated just before it calls
`extract_help_urls`. -/
structure Prep where
  parent : FsPath
  pages : List FsPath
  navMissing : List FsPath
  includeDirs : List FsPath
  files : List FsPath
  maps : LinkMaps

/-- The phases of `audit` (ghost-lib/src/lib.rs, lines 79-99) up to and
including `build_link_maps`, in source order: read and decode the top-level
nav, take its parent directory, collect pages, compute `nav_missing`,
collect the include roots, walk them for markdown, build the link maps.
Every failure returns `Err` and aborts. -/
def auditPrep (env : Env) (orc : Oracle) (fuel : Nat) (mkdocsYaml : FsPath) :
    Except Str Prep :=
  match env.read mkdocsYaml with
  | none => .error errTopRead
  | some contents =>
    match orc.yamlNav contents with
    | none => .error errTopDecode
    | some nav =>
      match parentFs mkdocsYaml with
      | none => .error errNoParent
      | some parent =>
        match collectPagesList env orc fuel nav parent [] with
        | .error e => .error e
        | .ok pages =>
          let navMissing := missingFiles env pages
          let includeDirs := includeRoots nav parent
          match findMarkdown env includeDirs with
          | .error e => .error e
          | .ok files =>
            match buildLinkMaps env orc fuel nav parent with
            | .error e => .error e
            | .ok maps => .ok ⟨parent, pages, navMissing, includeDirs, files, maps⟩

def docAssetsComp : Str := ("documentation-assets").toList

def cssStr : Str := ("css").toList

def scssStr : Str := ("scss").toList

/-- The image/CSS walks swallow walk errors (`filter_map(|e| e.ok())`). -/
def walkOk (env : Env) (dir : FsPath) : List FsPath :=
  match env.walkFiles dir with
  | .ok l => l
  | .error _ => []

/-- The remainder of `audit` after `extract_help_urls` has succeeded:
`help_missing`, the transitive scan, the ghost list, the image analysis,
orphan images and footnote detection. -/
def auditMain (env : Env) (orc : Oracle) (prep : Prep) (helpFiles : List FsPath) :
    AuditResult :=
  let helpMissing := missingFiles env helpFiles
  let ctx : ResCtx :=
    { filesSet := prep.files, isFile := env.isFile, isDir := env.isDir,
      mkdocsDir := prep.parent, includeDirs := prep.includeDirs, maps := prep.maps,
      helpFiles := helpFiles, mdLinks := orc.mdLinks }
  let s0 : ScanState :=
    { toScan := (prep.pages ++ helpFiles).filter env.isFile, scanned := [],
      referenced := insertAll [] helpFiles, broken := [] }
  let st := runScan env ctx (env.files.length + 1) s0
  let ghost := ghostAfterScan prep.pages prep.files st.referenced
  let allImages := insertAll []
    (prep.includeDirs.flatMap
      (fun dir => ((walkOk env dir).filter isImageFile).map normalizePathComps))
  let cssDirs := (prep.includeDirs ++ [prep.parent ++ [docAssetsComp]]).filter env.pathExists
  let cssFiles := cssDirs.flatMap (fun dir =>
    (walkOk env dir).filter
      (fun p => fsExtension p == some cssStr || fsExtension p == some scssStr))
  let imgRes := analyseImageRefs env orc st.scanned cssFiles allImages prep.includeDirs
  let orphanImages := allImages.filter (fun img => !(imgRes.2.contains img))
  let pagesWithFootnotes := st.scanned.filter (fun p =>
    match env.read p with
    | some content => hasFootnotes content
    | none => false)
  { navMissing := prep.navMissing, ghost := ghost, helpMissing := helpMissing,
    brokenLinks := st.broken, missingImages := imgRes.1, orphanImages := orphanImages,
    pagesWithFootnotes := pagesWithFootnotes }

def panicMsg : Str := ("failed to read file").toList

/-- `audit` (ghost-lib/src/lib.rs): the prep phases (any failure returns
`Err`), then `extract_help_urls` — whose read failure panics via `expect` —
then the main computation. -/
def audit (env : Env) (orc : Oracle) (fuel : Nat) (mkdocsYaml helpUrls : FsPath) :
    Outcome :=
  match auditPrep env orc fuel mkdocsYaml with
  | .error e => .err e
  | .ok prep =>
    match extractHelpUrls env orc helpUrls prep.parent with
    | none => .panicked panicMsg
    | some helpFiles => .ok (auditMain env orc prep helpFiles)

/-! ### Claim C7: a failing include aborts the audit -/

/-- A read or decode failure on some `!include` directive reachable during
the nav traversal (the traversal collect_pages and build_link_maps_inner
both perform, reading the same include files with the same prefixes). -/
inductive IncFail (env : Env) (orc : Oracle) : List NavItem → FsPath → Prop where
  | plainSkip {path : Str} {rest : List NavItem} {pre : FsPath} :
      IncFail env orc rest pre → IncFail env orc (.plain path :: rest) pre
  | pageNil {rest : List NavItem} {pre : FsPath} :
      IncFail env orc rest pre → IncFail env orc (.page [] :: rest) pre
  | pageEntrySkip {t path : Str} {more : List (Str × Str)} {rest : List NavItem}
      {pre : FsPath} :
      IncFail env orc (.page more :: rest) pre →
      IncFail env orc (.page ((t, path) :: more) :: rest) pre
  | pageIncludeRead {t path : Str} {more : List (Str × Str)} {rest : List NavItem}
      {pre : FsPath} {ip : Str} :
      parseIncludeTarget path = some ip →
      env.read (fsJoinStr pre ip) = none →
      IncFail env orc (.page ((t, path) :: more) :: rest) pre
  | pageIncludeDecode {t path : Str} {more : List (Str × Str)} {rest : List NavItem}
      {pre : FsPath} {ip c : Str} :
      parseIncludeTarget path = some ip →
      env.read (fsJoinStr pre ip) = some c →
      orc.yamlNav c = none →
      IncFail env orc (.page ((t, path) :: more) :: rest) pre
  | pageIncludeInside {t path : Str} {more : List (Str × Str)} {rest : List NavItem}
      {pre : FsPath} {ip c : Str} {nav2 : List NavItem} {par : FsPath} :
      parseIncludeTarget path = some ip →
      env.read (fsJoinStr pre ip) = some c →
      orc.yamlNav c = some nav2 →
      parentFs (fsJoinStr pre ip) = some par →
      IncFail env orc nav2 par →
      IncFail env orc (.page ((t, path) :: more) :: rest) pre
  | sectNil {rest : List NavItem} {pre : FsPath} :
      IncFail env orc rest pre → IncFail env orc (.sect [] :: rest) pre
  | sectChild {t : Str} {children : List NavItem} {more : List (Str × List NavItem)}
      {rest : List NavItem} {pre : FsPath} :
      IncFail env orc children pre →
      IncFail env orc (.sect ((t, children) :: more) :: rest) pre
  | sectEntrySkip {t : Str} {children : List NavItem} {more : List (Str × List NavItem)}
      {rest : List NavItem} {pre : FsPath} :
      IncFail env orc (.sect more :: rest) pre →
      IncFail env orc (.sect ((t, children) :: more) :: rest) pre

theorem collectPagesList_error_of_incFail (env : Env) (orc : Oracle)
    {nav : List NavItem} {pre : FsPath} (h : IncFail env orc nav pre) :
    ∀ (fuel : Nat) (acc : List FsPath),
      ∃ e, collectPagesList env orc fuel nav pre acc = .error e := by
  induction h with
  | plainSkip hrest ih =>
    intro fuel acc
    simp only [collectPagesList]
    exact ih fuel _
  | pageNil hrest ih =>
    intro fuel acc
    simp only [collectPagesList]
    exact ih fuel acc
  | pageEntrySkip h2 ih =>
    intro fuel acc
    rename_i t path more rest pre2
    cases hp : parseIncludeTarget path with
    | none =>
      simp only [collectPagesList, hp]
      exact ih fuel _
    | some ip =>
      cases fuel with
      | zero =>
        refine ⟨errNoFuel, ?_⟩
        simp only [collectPagesList, hp]
      | succ n =>
        cases hr : env.read (fsJoinStr pre2 ip) with
        | none =>
          refine ⟨errIncludeRead, ?_⟩
          simp only [collectPagesList, hp, hr]
        | some c =>
          cases hy : orc.yamlNav c with
          | none =>
            refine ⟨errIncludeDecode, ?_⟩
            simp only [collectPagesList, hp, hr, hy]
          | some nav2 =>
            cases hpar : parentFs (fsJoinStr pre2 ip) with
            | none =>
              refine ⟨errIncludeParent, ?_⟩
              simp only [collectPagesList, hp, hr, hy, hpar]
            | some par =>
              cases hin : collectPagesList env orc n nav2 par acc with
              | error e =>
                refine ⟨e, ?_⟩
                simp only [collectPagesList, hp, hr, hy, hpar, hin]
              | ok acc2 =>
                obtain ⟨e, he⟩ := ih (n + 1) acc2
                refine ⟨e, ?_⟩
                simp only [collectPagesList, hp, hr, hy, hpar, hin]
                exact he
  | pageIncludeRead hp hr =>
    intro fuel acc
    cases fuel with
    | zero =>
      refine ⟨errNoFuel, ?_⟩
      simp only [collectPagesList, hp]
    | succ n =>
      refine ⟨errIncludeRead, ?_⟩
      simp only [collectPagesList, hp, hr]
  | pageIncludeDecode hp hr hy =>
    intro fuel acc
    cases fuel with
    | zero =>
      refine ⟨errNoFuel, ?_⟩
      simp only [collectPagesList, hp]
    | succ n =>
      refine ⟨errIncludeDecode, ?_⟩
      simp only [collectPagesList, hp, hr, hy]
  | pageIncludeInside hp hr hy hpar hin ih =>
    intro fuel acc
    cases fuel with
    | zero =>
      refine ⟨errNoFuel, ?_⟩
      simp only [collectPagesList, hp]
    | succ n =>
      obtain ⟨e, he⟩ := ih n acc
      refine ⟨e, ?_⟩
      simp only [collectPagesList, hp, hr, hy, hpar, he]
  | sectNil hrest ih =>
    intro fuel acc
    simp only [collectPagesList]
    exact ih fuel acc
  | sectChild hch ih =>
    intro fuel acc
    obtain ⟨e, he⟩ := ih fuel acc
    refine ⟨e, ?_⟩
    simp only [collectPagesList, he]
  | sectEntrySkip h2 ih =>
    intro fuel acc
    rename_i t children more rest pre2
    cases hin : collectPagesList env orc fuel children pre2 acc with
    | error e =>
      refine ⟨e, ?_⟩
      simp only [collectPagesList, hin]
    | ok acc2 =>
      obtain ⟨e, he⟩ := ih fuel acc2
      refine ⟨e, ?_⟩
      simp only [collectPagesList, hin]
      exact he

/-- Claim C7: if the top-level nav YAML fails to read or decode, or any
transitively included nav file reached through an `!include` directive
fails to read or decode, then `audit` returns an error and produces no
`AuditResult` at all. -/
theorem c7_audit_aborts_on_include_failure (env : Env) (orc : Oracle) (fuel : Nat)
    (mkdocsYaml helpUrls : FsPath)
    (hfail :
      env.read mkdocsYaml = none ∨
      (∃ c, env.read mkdocsYaml = some c ∧ orc.yamlNav c = none) ∨
      (∃ c nav par, env.read mkdocsYaml = some c ∧ orc.yamlNav c = some nav ∧
        parentFs mkdocsYaml = some par ∧ IncFail env orc nav par)) :
    ∃ e, audit env orc fuel mkdocsYaml helpUrls = .err e := by
  rcases hfail with hread | ⟨c, hread, hyaml⟩ | ⟨c, nav, par, hread, hyaml, hpar, hinc⟩
  · refine ⟨errTopRead, ?_⟩
    simp only [audit, auditPrep, hread]
  · refine ⟨errTopDecode, ?_⟩
    simp only [audit, auditPrep, hread, hyaml]
  · obtain ⟨e, he⟩ := collectPagesList_error_of_incFail env orc hinc fuel []
    refine ⟨e, ?_⟩
    simp only [audit, auditPrep, hread, hyaml, hpar, he]

def mk7 : FsPath := [("mkdocs.yml").toList]

def navTxt7 : Str := ("nav placeholder").toList

def nav7 : List NavItem :=
  [.page [(("Sub").toList, ("!include ./sub/mkdocs.yml").toList)]]

def env7 : Env :=
  { read := fun p => if p == mk7 then some navTxt7 else none,
    isFile := fun _ => false, isDir := fun _ => false, pathExists := fun _ => false,
    walkFiles := fun _ => .ok [], files := [] }

def orc7 : Oracle :=
  { yamlNav := fun _ => some nav7, mdLinks := fun _ => [], mdImages := fun _ => [],
    cssUrls := fun _ => [], defines := fun _ => [], helpCalls := fun _ => [] }

/-- Witness for C7: a monorepo whose single `!include` target cannot be
read; the audit returns an error. -/
theorem c7_audit_aborts_on_include_failure_witness :
    ∃ e, audit env7 orc7 3 mk7 [("help_urls.h").toList] = .err e :=
  c7_audit_aborts_on_include_failure env7 orc7 3 mk7 [("help_urls.h").toList]
    (Or.inr (Or.inr ⟨navTxt7, nav7, [], rfl, rfl, rfl,
      IncFail.pageIncludeRead rfl rfl⟩))

/-! ### Claim C8: the transitive scan terminates -/

theorem mem_insertNew_left {l : List FsPath} {p q : FsPath} (h : q ∈ l) :
    q ∈ insertNew l p := by
  unfold insertNew
  split
  · exact h
  · exact List.mem_append_left _ h

theorem mem_insertNew_self (l : List FsPath) (p : FsPath) : p ∈ insertNew l p := by
  unfold insertNew
  split
  · next hc => exact List.elem_iff.mp hc
  · exact List.mem_append_right _ (List.mem_singleton.mpr rfl)

theorem mem_insertAll_left {ps : List FsPath} :
    ∀ {l : List FsPath} {q : FsPath}, q ∈ l → q ∈ insertAll l ps := by
  induction ps with
  | nil => exact fun h => h
  | cons a rest ih => exact fun h => ih (mem_insertNew_left h)

theorem mem_insertAll_of_mem {ps : List FsPath} :
    ∀ {l : List FsPath} {q : FsPath}, q ∈ ps → q ∈ insertAll l ps := by
  induction ps with
  | nil => intro l q h; exact absurd h (List.not_mem_nil q)
  | cons a rest ih =>
    intro l q h
    rcases List.mem_cons.mp h with rfl | h2
    · show q ∈ insertAll (insertNew l q) rest
      exact mem_insertAll_left (mem_insertNew_self l q)
    · exact ih h2

/-- The batch of files one scan iteration reads: the worklist entries that
are not yet scanned and can be read. -/
def scanBatch (env : Env) (s : ScanState) : List (FsPath × Str) :=
  (s.toScan.filter (fun p => !(s.scanned.contains p))).filterMap
    (fun p => (env.read p).map (fun c => (p, c)))

theorem scanStep_eq (env : Env) (ctx : ResCtx) (s : ScanState) :
    scanStep env ctx s =
      if s.toScan.isEmpty then none
      else if (scanBatch env s).isEmpty then none
      else
        some
          { toScan := (analyseLinks ctx (scanBatch env s)).1.filter
              (fun p => !((insertAll s.scanned ((scanBatch env s).map Prod.fst)).contains p)
                && env.isFile p),
            scanned := insertAll s.scanned ((scanBatch env s).map Prod.fst),
            referenced := insertAll s.referenced (analyseLinks ctx (scanBatch env s)).1,
            broken := s.broken ++ (analyseLinks ctx (scanBatch env s)).2 } := rfl

theorem scanStep_decreases (env : Env) (ctx : ResCtx) (s s2 : ScanState)
    (hdom : ∀ p c, env.read p = some c → p ∈ env.files)
    (h : scanStep env ctx s = some s2) :
    (env.files.toFinset \ s2.scanned.toFinset).card
      < (env.files.toFinset \ s.scanned.toFinset).card := by
  rw [scanStep_eq] at h
  by_cases hA : s.toScan.isEmpty = true
  · rw [if_pos hA] at h
    exact absurd h (by simp)
  · rw [if_neg hA] at h
    by_cases hB : (scanBatch env s).isEmpty = true
    · rw [if_pos hB] at h
      exact absurd h (by simp)
    · rw [if_neg hB, Option.some.injEq] at h
      have hs2 : s2.scanned = insertAll s.scanned ((scanBatch env s).map Prod.fst) := by
        rw [← h]
      obtain ⟨pair, hpair⟩ := List.exists_mem_of_ne_nil _ (by simpa using hB)
      obtain ⟨p, hpmem, hpread⟩ := List.mem_filterMap.mp hpair
      have hpfilter := List.mem_filter.mp hpmem
      have hpnotscanned : p ∉ s.scanned := by
        have := hpfilter.2
        simp at this
        exact this
      cases hread : env.read p with
      | none =>
        rw [hread] at hpread
        exact absurd hpread (by simp)
      | some c =>
        rw [hread] at hpread
        have hpp : p = pair.1 := by
          have : (p, c) = pair := by simpa using hpread
          rw [← this]
        have hfiles : p ∈ env.files := hdom p c hread
        have hscan2 : p ∈ s2.scanned := by
          rw [hs2]
          exact mem_insertAll_of_mem (hpp ▸ List.mem_map_of_mem Prod.fst hpair)
        apply Finset.card_lt_card
        constructor
        · intro x hx
          obtain ⟨hxf, hxs⟩ := Finset.mem_sdiff.mp hx
          refine Finset.mem_sdiff.mpr ⟨hxf, ?_⟩
          intro hxs1
          exact hxs (List.mem_toFinset.mpr (by
            rw [hs2]
            exact mem_insertAll_left (List.mem_toFinset.mp hxs1)))
        · intro hsub
          have hp1 : p ∈ env.files.toFinset \ s.scanned.toFinset :=
            Finset.mem_sdiff.mpr ⟨List.mem_toFinset.mpr hfiles,
              fun hc => hpnotscanned (List.mem_toFinset.mp hc)⟩
          have hp2 := hsub hp1
          obtain ⟨_, hp3⟩ := Finset.mem_sdiff.mp hp2
          exact hp3 (List.mem_toFinset.mpr hscan2)

/-- Claim C8: with the on-disk file set finite and stable (the readable
files all belong to `env.files`), the worklist loop of audit terminates:
every iteration either reads at least one new file — strictly shrinking the
set of not-yet-scanned readable files — or exits, so after at most
`env.files` many iterations (any fuel beyond the measure) the loop has
reached its exit condition. -/
theorem c8_scan_terminates (env : Env) (ctx : ResCtx)
    (hdom : ∀ p c, env.read p = some c → p ∈ env.files) :
    ∀ (fuel : Nat) (s : ScanState),
      (env.files.toFinset \ s.scanned.toFinset).card < fuel →
      scanStep env ctx (runScan env ctx fuel s) = none := by
  intro fuel
  induction fuel with
  | zero => intro s h; omega
  | succ n ih =>
    intro s hcard
    cases h : scanStep env ctx s with
    | none =>
      simp only [runScan, h]
    | some s2 =>
      simp only [runScan, h]
      refine ih s2 ?_
      have := scanStep_decreases env ctx s s2 hdom h
      omega

def env8 : Env :=
  { read := fun _ => none, isFile := fun _ => false, isDir := fun _ => false,
    pathExists := fun _ => false, walkFiles := fun _ => .ok [], files := [] }

def ctx8 : ResCtx :=
  { filesSet := [], isFile := fun _ => false, isDir := fun _ => false, mkdocsDir := [],
    includeDirs := [], maps := { urlToSrc := [], srcToUrl := [] }, helpFiles := [],
    mdLinks := fun _ => [] }

def s8 : ScanState :=
  { toScan := [[("a.md").toList]], scanned := [], referenced := [], broken := [] }

/-- Witness for C8: in an environment with no readable files, a one-element
worklist converges within one iteration. -/
theorem c8_scan_terminates_witness :
    (env8.files.toFinset \ s8.scanned.toFinset).card < 1 ∧
      scanStep env8 ctx8 (runScan env8 ctx8 1 s8) = none := by
  constructor
  · decide
  · exact c8_scan_terminates env8 ctx8 (fun p c h => absurd h (by simp [env8])) 1 s8
      (by decide)

/-! ### Claim C9: an unreadable help-urls file panics instead of erroring -/

/-- Claim C9: when the help-urls file cannot be read, `extract_help_urls`
panics (the `expect` on the read), so an audit whose preparatory phases all
succeeded aborts by panic on this input instead of returning the
descriptive `Err` used for the fatal nav-configuration failures. -/
theorem c9_help_read_panics (env : Env) (orc : Oracle) (fuel : Nat)
    (mkdocsYaml helpUrls : FsPath) (prep : Prep)
    (hprep : auditPrep env orc fuel mkdocsYaml = .ok prep)
    (hread : env.read helpUrls = none) :
    extractHelpUrls env orc helpUrls prep.parent = none ∧
      audit env orc fuel mkdocsYaml helpUrls = .panicked panicMsg := by
  have hex : extractHelpUrls env orc helpUrls prep.parent = none := by
    unfold extractHelpUrls
    rw [hread]
  refine ⟨hex, ?_⟩
  unfold audit
  rw [hprep]
  simp only [hex]

def mk9 : FsPath := [("mkdocs.yml").toList]

def hp9 : FsPath := [("help_urls.h").toList]

def navTxt9 : Str := ("nav placeholder").toList

def env9 : Env :=
  { read := fun p => if p == mk9 then some navTxt9 else none,
    isFile := fun _ => false, isDir := fun _ => false, pathExists := fun _ => false,
    walkFiles := fun _ => .ok [], files := [] }

def orc9 : Oracle :=
  { yamlNav := fun _ => some [], mdLinks := fun _ => [], mdImages := fun _ => [],
    cssUrls := fun _ => [], defines := fun _ => [], helpCalls := fun _ => [] }

def prep9 : Prep :=
  { parent := [], pages := [], navMissing := [], includeDirs := [], files := [],
    maps := { urlToSrc := [], srcToUrl := [] } }

theorem auditPrep_env9 : auditPrep env9 orc9 1 mk9 = .ok prep9 := by
  have h1 : collectPagesList env9 orc9 1 [] [] [] = .ok [] := by
    simp [collectPagesList]
  have h2 : buildLinkMaps env9 orc9 1 [] [] = .ok { urlToSrc := [], srcToUrl := [] } := by
    simp [buildLinkMaps, buildLinkMapsInner]
  have h3 : includeRoots [] ([] : FsPath) = [] := by
    simp [includeRoots, includeRootsList]
  have hstep : auditPrep env9 orc9 1 mk9 =
      (match collectPagesList env9 orc9 1 [] [] [] with
        | .error e => .error e
        | .ok pages =>
          match findMarkdown env9 (includeRoots [] []) with
          | .error e => .error e
          | .ok files =>
            match buildLinkMaps env9 orc9 1 [] [] with
            | .error e => .error e
            | .ok maps =>
              .ok { parent := [], pages := pages, navMissing := missingFiles env9 pages,
                    includeDirs := includeRoots [] [], files := files, maps := maps }) := rfl
  rw [hstep, h1, h3, h2]
  rfl

/-- Witness for C9: an audit whose nav phases succeed but whose help-urls
file is unreadable ends in the panic outcome. -/
theorem c9_help_read_panics_witness :
    extractHelpUrls env9 orc9 hp9 prep9.parent = none ∧
      audit env9 orc9 1 mk9 hp9 = .panicked panicMsg :=
  c9_help_read_panics env9 orc9 1 mk9 hp9 prep9 auditPrep_env9 rfl
